import Mathlib

/-!
Verification development for the USDC/Polygon history reconciliation module
(src/ethers.ts): data model, event classification, balance cache, history
sync guard and backward scan loop, shallowly embedded in Lean.

Conventions of the embedding: JavaScript numbers and ethers BigNumber values
are modelled as `Int` (the module keeps all token amounts within 53-bit float
precision, so integer arithmetic is exact); addresses and hashes are `String`;
JavaScript `Map`/`Set` objects are association lists / lists; `async` I/O
(receipt fetches, block fetches, log queries) is modelled by oracle functions
passed as parameters; `undefined`-able fields are `Option`.
-/

namespace Wallet

/-- Decoded arguments of a Transfer log (interface TransferResult in
src/ethers.ts): the from, to and value fields, plus the optional fee field
that `addFeeToArgs` attaches. -/
structure TransferArgs where
  from_ : String
  to_ : String
  value : Int
  fee : Option Int
deriving DecidableEq

/-- One raw transfer-like log entry (interfaces TransferLog / TransferEvent in
src/ethers.ts). `args` is optional because ethers events may fail to decode;
`failed` is the flag set by the classifier when only a fee log exists. -/
structure TransferLog where
  address : String
  transactionHash : String
  logIndex : Nat
  blockHash : String
  args : Option TransferArgs
  failed : Bool
deriving DecidableEq

/-- Lifecycle events attached to a transaction: the HtlcEvent variants
(Open, Redeem, Refund) and the UniswapEvent variant (Swap) from the
UsdcTransactions store. -/
inductive LifecycleEvent
  | openEvent (id token : String) (amount : Int) (recipient hash : String) (timeout : Int)
  | redeemEvent (id secret : String)
  | refundEvent (id : String)
  | swapEvent (amountIn amountOut : Int)
deriving DecidableEq

/-- TransactionState from the UsdcTransactions store. -/
inductive TransactionState
  | pending
  | mined
  | failed
deriving DecidableEq

/-- The `{number, timestamp}` part of a fetched block. -/
structure Block where
  number : Nat
  timestamp : Nat
deriving DecidableEq

/-- The canonical Transaction record emitted to the transactions store. -/
structure Transaction where
  token : String
  transactionHash : String
  logIndex : Nat
  sender : String
  recipient : String
  value : Int
  fee : Option Int
  event : Option LifecycleEvent
  state : TransactionState
  blockHeight : Option Nat
  timestamp : Option Nat
deriving DecidableEq

/-- Result of interface.parseLog on an inner receipt log: a Transfer event,
one of the HTLC events, some other successfully decoded event, or (as the
`Option.none` of the `decoded` field below) a decode failure. -/
inductive DecodedEvent
  | transfer (from_ to_ : String) (value : Int)
  | openEv (id token : String) (amount : Int) (recipient hash : String) (timeout : Int)
  | redeemEv (id secret : String)
  | refundEv (id : String)
  | otherEv
deriving DecidableEq

/-- One inner log of a transaction receipt. `decoded` holds what the event
intrinsically is; decode failure against every interface is `none`. -/
structure InnerLog where
  address : String
  transactionHash : String
  logIndex : Nat
  blockHash : String
  decoded : Option DecodedEvent
deriving DecidableEq

/-- The configuration constants the classifier reads (config.usdc fields, the
Uniswap fee-pool addresses obtained from getPoolAddress, and whether
config.environment is ENV_MAIN). -/
structure ScanConfig where
  address : String
  envMain : Bool
  poolAddress : String
  nativePoolAddress : String
  usdcContract : String
  nativeUsdcContract : String
  htlcContract : String
  nativeHtlcContract : String
  swapPoolContract : String
deriving DecidableEq

/-- Hard-coded v2 USDC transfer contract address (fee collector before v3,
testnet only). -/
def V2_TRANSFER_CONTRACT : String := "0x443EAAd5EeAacCdC3887477c188CF2875B3dcf7c"

/-- Hard-coded v1 USDC transfer contract address (fee collector before v3,
testnet only). -/
def V1_TRANSFER_CONTRACT : String := "0x703EC732971cB23183582a6966bA70E164d89ab1"

/-- Hard-coded v1 USDC HTLC contract address (fee collector before v3,
testnet only). -/
def V1_HTLC_CONTRACT : String := "0x573aA448cC6e28AF0EeC7E93037B5A592a83d936"

/-- addFeeToArgs from src/ethers.ts. The TS function pushes the fee onto the
cloned args array and then sets `args.fee = args[3]`; when the args already
carry a fee (a second attachment), index 3 still holds the first fee, so a
later attachment never overwrites an existing fee. -/
def addFeeToArgs (args : TransferArgs) (fee : Int) : TransferArgs :=
  { args with fee := some (args.fee.getD fee) }

/-- logAndBlockToPlain from src/ethers.ts: build a Transaction from a log, an
optional block and an optional lifecycle event. Returns `none` when the log
carries no decoded args (the TS code can only be reached with decoded args). -/
def logAndBlockToPlain (log : TransferLog) (block : Option Block)
    (event : Option LifecycleEvent) : Option Transaction :=
  log.args.map fun a =>
    { token := log.address
      transactionHash := log.transactionHash
      logIndex := log.logIndex
      sender := a.from_
      recipient := a.to_
      value := a.value
      fee := a.fee
      event := event
      state := if log.failed then TransactionState.failed
               else if block.isSome then TransactionState.mined
               else TransactionState.pending
      blockHeight := block.map Block.number
      timestamp := block.map Block.timestamp }

/-- Receipt scan for an Open event of the HTLC contract (the
`log.getTransactionReceipt().then(...)` body for logs whose recipient is the
HTLC contract): first inner log at the HTLC address that decodes to Open;
decode failures and other events are skipped. -/
def parseHtlcOpen (cfg : ScanConfig) (receiptLogs : List InnerLog) : Option LifecycleEvent :=
  receiptLogs.findSome? fun innerLog =>
    if innerLog.address = cfg.htlcContract then
      match innerLog.decoded with
      | some (DecodedEvent.openEv id token amount recipient hash timeout) =>
          some (LifecycleEvent.openEvent id token amount recipient hash timeout)
      | _ => none
    else none

/-- Receipt scan for a Redeem or Refund event of the HTLC contract (for logs
whose sender is the HTLC contract). -/
def parseHtlcRedeemRefund (cfg : ScanConfig) (receiptLogs : List InnerLog) :
    Option LifecycleEvent :=
  receiptLogs.findSome? fun innerLog =>
    if innerLog.address = cfg.htlcContract then
      match innerLog.decoded with
      | some (DecodedEvent.redeemEv id secret) => some (LifecycleEvent.redeemEvent id secret)
      | some (DecodedEvent.refundEv id) => some (LifecycleEvent.refundEvent id)
      | _ => none
    else none

/-- Receipt scan of the history-sync classifier for the second leg of a
bridged-to-native swap (src/ethers.ts lines 595-611): the FIRST inner log at
the native USDC contract that decodes to a Transfer, with NO condition on the
sender of that transfer. -/
def parseUniswapScan (cfg : ScanConfig) (amountIn : Int) (receiptLogs : List InnerLog) :
    Option LifecycleEvent :=
  receiptLogs.findSome? fun innerLog =>
    if innerLog.address = cfg.nativeUsdcContract then
      match innerLog.decoded with
      | some (DecodedEvent.transfer _ _ v) => some (LifecycleEvent.swapEvent amountIn v)
      | _ => none
    else none

/-- Receipt scan of receiptToTransaction for the second swap leg
(src/ethers.ts lines 1296-1308): iterates ALL inner logs at the native USDC
contract, keeps only transfers whose sender is the swap pool, and the LAST
match wins. -/
def parseUniswapReceipt (cfg : ScanConfig) (amountIn : Int) (receiptLogs : List InnerLog) :
    Option LifecycleEvent :=
  receiptLogs.foldl
    (fun acc innerLog =>
      if innerLog.address = cfg.nativeUsdcContract then
        match innerLog.decoded with
        | some (DecodedEvent.transfer f _ v) =>
            if f = cfg.swapPoolContract then some (LifecycleEvent.swapEvent amountIn v) else acc
        | _ => acc
      else acc)
    none

/-- The mutable reconciliation accumulator of one history-sync run: remaining
balance, nonce and the two allowance-used quantities. -/
structure SyncCursor where
  balance : Int
  usdcNonce : Int
  transferAllowanceUsed : Int
  htlcAllowanceUsed : Int
deriving DecidableEq

/-- The cursor accounting performed at the top of the classifier filter
callback for one log (src/ethers.ts lines 468-479): an outgoing log adds its
value back to the remaining balance and consumes one of the two allowances
(chosen by whether the transaction of the log funds the HTLC), but only once
the decremented nonce is at or below zero; an incoming log subtracts its
value from the remaining balance. -/
def acctStep (cfg : ScanConfig) (txsUsingHtlcAllowance : List String) (nonceAfter : Int)
    (c : SyncCursor) (transactionHash : String) (args : TransferArgs) : SyncCursor :=
  let c :=
    if args.from_ = cfg.address ∧ nonceAfter ≤ 0 then
      let c := { c with balance := c.balance + args.value }
      if transactionHash ∈ txsUsingHtlcAllowance then
        { c with htlcAllowanceUsed := c.htlcAllowanceUsed - args.value }
      else
        { c with transferAllowanceUsed := c.transferAllowanceUsed - args.value }
    else c
  if args.to_ = cfg.address then { c with balance := c.balance - args.value } else c

/-- The find over allTransferLogs for the main transfer log belonging to a fee
log: first log with the same transaction hash and a different log index. -/
def findMainIdx : List TransferLog → String → Nat → Option Nat
  | [], _, _ => none
  | l :: ls, hash, logIndex =>
    if l.transactionHash = hash ∧ l.logIndex ≠ logIndex then some 0
    else (findMainIdx ls hash logIndex).map (· + 1)

/-- The find used by the legacy v1-HTLC fee branch: first log with the same
transaction hash and a strictly higher log index. -/
def findMainIdxHigher : List TransferLog → String → Nat → Option Nat
  | [], _, _ => none
  | l :: ls, hash, logIndex =>
    if l.transactionHash = hash ∧ logIndex < l.logIndex then some 0
    else (findMainIdxHigher ls hash logIndex).map (· + 1)

/-- Write a fee into the args of the log at index `j`
(`mainTransferLog.args = addFeeToArgs(mainTransferLog.args, log.args.value)`). -/
def attachFeeAt (logs : List TransferLog) (j : Nat) (fee : Int) : List TransferLog :=
  match logs.get? j with
  | some l =>
    match l.args with
    | some a => logs.set j { l with args := some (addFeeToArgs a fee) }
    | none => logs
  | none => logs

/-- The effect a classifier filter callback has on the log array and on its
own keep/drop decision, after the known-hashes check. -/
inductive StepAction
  | skip
  | keepLog
  | attachFee (j : Nat) (fee : Int)
  | markFailed
deriving DecidableEq

/-- Decision logic of the classifier filter callback (src/ethers.ts lines
483-533) for a log that decoded and whose hash is not known: fee logs (logs
paying the Uniswap pool, or the legacy pre-v3 fee collectors outside mainnet)
write their value as the fee of the main transfer log and are dropped, unless
no main transfer log exists, in which case the fee log itself is kept and
marked failed; every other log is kept. -/
def decideAction (cfg : ScanConfig) (logs : List TransferLog) (log : TransferLog)
    (args : TransferArgs) : StepAction :=
  if args.to_ = cfg.poolAddress ∨
      (cfg.envMain = false ∧ (args.to_ = V2_TRANSFER_CONTRACT ∨ args.to_ = V1_TRANSFER_CONTRACT)) then
    match findMainIdx logs log.transactionHash log.logIndex with
    | some j =>
      match (logs.get? j).bind TransferLog.args with
      | some _ => StepAction.attachFee j args.value
      | none => StepAction.skip
    | none => StepAction.markFailed
  else if cfg.envMain = false ∧ args.to_ = V1_HTLC_CONTRACT then
    match findMainIdxHigher logs log.transactionHash log.logIndex with
    | some j =>
      match (logs.get? j).bind TransferLog.args with
      | some _ => StepAction.attachFee j args.value
      | none => StepAction.skip
    | none => StepAction.skip
  else StepAction.keepLog

/-- Association-list lookup keyed by string (JavaScript Map.get). -/
def lookupKey {β : Type} (k : String) : List (String × β) → Option β
  | [] => none
  | p :: ps => if p.1 = k then some p.2 else lookupKey k ps

/-- Association-list update keyed by string (JavaScript Map.set): replace in
place when the key exists, append otherwise. -/
def setKey {β : Type} : List (String × β) → String → β → List (String × β)
  | [], k, v => [(k, v)]
  | p :: ps, k, v => if p.1 = k then (k, v) :: ps else p :: setKey ps k v

/-- The running state of one classifier pass over allTransferLogs: the log
array (mutated by fee attachment and failed marking), the keep/drop decisions
made so far, the cursor, and the two per-transaction event maps. -/
structure ChunkState where
  logs : List TransferLog
  keep : List Bool
  cursor : SyncCursor
  htlcEvents : List (String × Option LifecycleEvent)
  uniswapEvents : List (String × Option LifecycleEvent)
deriving DecidableEq

/-- One classifier filter callback (src/ethers.ts lines 464-617) applied to
the log at index `i`: cursor accounting first, then the known-hashes check,
then the fee/keep decision, and for kept logs the scheduling of HTLC and
Uniswap receipt lookups keyed by transaction hash. -/
def classifyStep (cfg : ScanConfig) (knownHashes txsUsingHtlcAllowance : List String)
    (nonceAfter : Int) (receipts : String → List InnerLog) (st : ChunkState) (i : Nat) :
    ChunkState :=
  match st.logs.get? i with
  | none => st
  | some log =>
    match log.args with
    | none => { st with keep := st.keep ++ [false] }
    | some args =>
      let cursor := acctStep cfg txsUsingHtlcAllowance nonceAfter st.cursor
        log.transactionHash args
      if log.transactionHash ∈ knownHashes then
        { st with cursor := cursor, keep := st.keep ++ [false] }
      else
        match decideAction cfg st.logs log args with
        | StepAction.attachFee j fee =>
          { st with cursor := cursor, keep := st.keep ++ [false],
                    logs := attachFeeAt st.logs j fee }
        | StepAction.markFailed =>
          { st with cursor := cursor, keep := st.keep ++ [true],
                    logs := st.logs.set i { log with failed := true } }
        | StepAction.skip =>
          { st with cursor := cursor, keep := st.keep ++ [false] }
        | StepAction.keepLog =>
          let htlcEvents :=
            if args.to_ = cfg.htlcContract then
              setKey st.htlcEvents log.transactionHash
                (parseHtlcOpen cfg (receipts log.transactionHash))
            else st.htlcEvents
          let htlcEvents :=
            if args.from_ = cfg.htlcContract then
              setKey htlcEvents log.transactionHash
                (parseHtlcRedeemRefund cfg (receipts log.transactionHash))
            else htlcEvents
          let uniswapEvents :=
            if args.to_ = cfg.swapPoolContract then
              setKey st.uniswapEvents log.transactionHash
                (parseUniswapScan cfg args.value (receipts log.transactionHash))
            else st.uniswapEvents
          { st with cursor := cursor, keep := st.keep ++ [true],
                    htlcEvents := htlcEvents, uniswapEvents := uniswapEvents }

/-- Run the classifier filter callback over the log array, one index per
step. -/
def classifyAux (cfg : ScanConfig) (knownHashes txsUsingHtlcAllowance : List String)
    (nonceAfter : Int) (receipts : String → List InnerLog) :
    Nat → Nat → ChunkState → ChunkState
  | 0, _, st => st
  | fuel + 1, i, st =>
    classifyAux cfg knownHashes txsUsingHtlcAllowance nonceAfter receipts fuel (i + 1)
      (classifyStep cfg knownHashes txsUsingHtlcAllowance nonceAfter receipts st i)

/-- The event attached to an emitted transaction:
`htlcEventsByTransactionHash.get(hash) || uniswapEventsByTransactionHash.get(hash)`.
A hash present in the HTLC map shadows the Uniswap map even when its receipt
scan produced nothing, because the JavaScript disjunction is on the promise. -/
def eventFor (htlcEvents uniswapEvents : List (String × Option LifecycleEvent))
    (transactionHash : String) : Option LifecycleEvent :=
  match lookupKey transactionHash htlcEvents with
  | some ev => ev
  | none =>
    match lookupKey transactionHash uniswapEvents with
    | some ev => ev
    | none => none

/-- The zero-value filter applied to each query result before classification
(`logs.filter((log) => !!log.args && !(log.args.value as BigNumber).isZero())`). -/
def filterNonzero (logs : List TransferLog) : List TransferLog :=
  logs.filter fun log => log.args.any fun a => a.value != 0

/-- Everything one chunk of the backward scan produces. -/
structure ChunkResult where
  cursor : SyncCursor
  finalLogs : List TransferLog
  keep : List Bool
  transactions : List Transaction
deriving DecidableEq

/-- The nonce decrement of one chunk:
`usdcNonce -= new Set(logsOut.map((ev) => ev.transactionHash)).size`. -/
def chunkNonceAfter (cursor : SyncCursor) (logsOut : List TransferLog) : Int :=
  cursor.usdcNonce - ((logsOut.map TransferLog.transactionHash).dedup).length

/-- The transactions of the chunk that fund the HTLC contract
(txsUsingHtlcAllowance). -/
def chunkHtlcTxs (cfg : ScanConfig) (logsOut : List TransferLog) : List String :=
  (logsOut.filter fun ev => ev.args.any fun a => a.to_ == cfg.htlcContract).map
    TransferLog.transactionHash

/-- The classifier state after one chunk: zero-value logs filtered from both
query results, then the classifier filter run over incoming ++ outgoing
logs. -/
def chunkFinalState (cfg : ScanConfig) (knownHashes : List String)
    (receipts : String → List InnerLog) (cursor : SyncCursor)
    (logsInRaw logsOutRaw : List TransferLog) : ChunkState :=
  let logsIn := filterNonzero logsInRaw
  let logsOut := filterNonzero logsOutRaw
  let allTransferLogs := logsIn ++ logsOut
  classifyAux cfg knownHashes (chunkHtlcTxs cfg logsOut) (chunkNonceAfter cursor logsOut)
    receipts allTransferLogs.length 0
    { logs := allTransferLogs, keep := [],
      cursor := { cursor with usdcNonce := chunkNonceAfter cursor logsOut },
      htlcEvents := [], uniswapEvents := [] }

/-- One chunk of the backward history scan (the body of the while loop in
src/ethers.ts lines 441-635): filter zero-value logs from both query results,
decrement the nonce by the number of distinct outgoing transaction hashes,
collect the transactions funding the HTLC, run the classifier filter over
incoming ++ outgoing logs, and convert the kept logs (with their final,
possibly fee-carrying args) into Transactions. -/
def processChunk (cfg : ScanConfig) (knownHashes : List String)
    (receipts : String → List InnerLog) (blocks : String → Block)
    (cursor : SyncCursor) (logsInRaw logsOutRaw : List TransferLog) : ChunkResult :=
  let stF := chunkFinalState cfg knownHashes receipts cursor logsInRaw logsOutRaw
  let newLogs := (stF.logs.zip stF.keep).filterMap fun p => if p.2 then some p.1 else none
  let transactions := newLogs.filterMap fun log =>
    logAndBlockToPlain log (some (blocks log.blockHash))
      (eventFor stF.htlcEvents stF.uniswapEvents log.transactionHash)
  { cursor := stF.cursor, finalLogs := stF.logs, keep := stF.keep,
    transactions := transactions }

/-- The backward scan loop of one history-sync run (the while loop in
src/ethers.ts lines 422-636), written with explicit fuel: while the height is
above the floor and some remaining quantity is positive, step one chunk of
STEP_BLOCKS blocks backward and thread the cursor through `processChunk`.
Returns the number of loop-body iterations together with the final cursor.
With fuel at least `blockHeight - earliestHeightToCheck` and a positive
STEP_BLOCKS the fuel never runs out before the loop condition turns false. -/
def syncLoopF (cfg : ScanConfig) (knownHashes : List String)
    (receipts : String → List InnerLog) (blocks : String → Block)
    (fetch : Nat → Nat → List TransferLog × List TransferLog)
    (STEP_BLOCKS earliestHeightToCheck : Nat) :
    Nat → Nat → SyncCursor → Nat × SyncCursor
  | 0, _, cursor => (0, cursor)
  | fuel + 1, blockHeight, cursor =>
    if earliestHeightToCheck < blockHeight ∧
        (0 < cursor.balance ∨ 0 < cursor.usdcNonce ∨
          0 < cursor.transferAllowanceUsed ∨ 0 < cursor.htlcAllowanceUsed) then
      let startHeight := max (blockHeight - STEP_BLOCKS) earliestHeightToCheck
      let chunk := fetch startHeight blockHeight
      let result := processChunk cfg knownHashes receipts blocks cursor chunk.1 chunk.2
      let rest := syncLoopF cfg knownHashes receipts blocks fetch STEP_BLOCKS
        earliestHeightToCheck fuel startHeight result.cursor
      (rest.1 + 1, rest.2)
    else (0, cursor)

/-- The backward scan loop started with exactly the fuel it needs. -/
def syncLoop (cfg : ScanConfig) (knownHashes : List String)
    (receipts : String → List InnerLog) (blocks : String → Block)
    (fetch : Nat → Nat → List TransferLog × List TransferLog)
    (STEP_BLOCKS earliestHeightToCheck blockHeight : Nat) (cursor : SyncCursor) :
    Nat × SyncCursor :=
  syncLoopF cfg knownHashes receipts blocks fetch STEP_BLOCKS earliestHeightToCheck
    (blockHeight - earliestHeightToCheck) blockHeight cursor

/-- Result of one `updateBalances` call: the new cache contents and the
patches sent to the address store. -/
structure RefreshResult where
  cache : List (String × Int)
  patches : List (String × Int)
deriving DecidableEq

/-- Building the newBalances Map from the fetched accounts:
`new Map(accounts.map((balance, i) => [addresses[i], balance]))`. A duplicate
address keeps its first position and takes the last value. -/
def mkBalancesMap (pairs : List (String × Int)) : List (String × Int) :=
  pairs.foldl (fun m p => setKey m p.1 p.2) []

/-- updateBalances from src/ethers.ts (the BalanceCache refresh): fetch the
balance of every requested address, drop the entries whose balance equals the
cached one, write the rest into the cache and emit them as patches. -/
def updateBalances (getBalance : String → Int) (cache : List (String × Int))
    (addresses : List String) : RefreshResult :=
  if addresses.isEmpty then { cache := cache, patches := [] }
  else
    let accounts := addresses.map getBalance
    let newBalances := mkBalancesMap (addresses.zip accounts)
    let changed := newBalances.filter fun p => !(lookupKey p.1 cache == some p.2)
    let cache2 := changed.foldl (fun m p => setKey m p.1 p.2) cache
    { cache := cache2, patches := changed }

/-- forgetBalances from src/ethers.ts: delete the cache entries of the given
addresses. -/
def forgetBalances (cache : List (String × Int)) (addresses : List String) :
    List (String × Int) :=
  addresses.foldl (fun m a => m.filter fun p => p.1 != a) cache

/-- The global guard state of history syncing: the fetchedAddresses marker set
and the fetchingTxHistory in-flight counter. -/
structure SyncGuardState where
  fetchedAddresses : List String
  fetchingTxHistory : Int
deriving DecidableEq

/-- Entry of one history-sync run (src/ethers.ts lines 357-372): when the
address already carries the fetched marker nothing starts; otherwise the
marker is set and the in-flight counter incremented, and a run starts. -/
def triggerFetch (st : SyncGuardState) (address : String) : SyncGuardState × Bool :=
  if address ∈ st.fetchedAddresses then (st, false)
  else ({ fetchedAddresses := address :: st.fetchedAddresses,
          fetchingTxHistory := st.fetchingTxHistory + 1 }, true)

/-- How a history-sync run ends. -/
inductive RunOutcome
  | success
  | failure
deriving DecidableEq

/-- Exit of one history-sync run (src/ethers.ts lines 645-650): the catch
handler clears the fetched marker on failure; the final then handler
decrements the in-flight counter in either case; on success the marker
stays. -/
def finishFetch (st : SyncGuardState) (address : String) : RunOutcome → SyncGuardState
  | RunOutcome.failure =>
    { fetchedAddresses := st.fetchedAddresses.erase address,
      fetchingTxHistory := st.fetchingTxHistory - 1 }
  | RunOutcome.success => { st with fetchingTxHistory := st.fetchingTxHistory - 1 }

/-- interface.parseLog of the token contract applied to an inner receipt log:
only Transfer events of the token decode. -/
def parseByTokenInterface : Option DecodedEvent → Option DecodedEvent
  | some (DecodedEvent.transfer f t v) => some (DecodedEvent.transfer f t v)
  | _ => none

/-- interface.parseLog of the HTLC contract applied to an inner receipt log:
only the HTLC events decode. -/
def parseByHtlcInterface : Option DecodedEvent → Option DecodedEvent
  | some (DecodedEvent.openEv id token amount recipient hash timeout) =>
      some (DecodedEvent.openEv id token amount recipient hash timeout)
  | some (DecodedEvent.redeemEv id secret) => some (DecodedEvent.redeemEv id secret)
  | some (DecodedEvent.refundEv id) => some (DecodedEvent.refundEv id)
  | _ => none

/-- The forEach accumulator of receiptToTransaction. -/
structure ReceiptScanState where
  transferLog : Option (InnerLog × TransferArgs)
  feeLog : Option (InnerLog × TransferArgs)
  htlcEvent : Option LifecycleEvent
  uniswapEvent : Option LifecycleEvent

/-- receiptToTransaction from src/ethers.ts: parse the inner logs of a receipt
against the token and HTLC interfaces, separate the fee log from the main
transfer log (last transfer wins), collect HTLC and Uniswap lifecycle events,
fall back to a failed transaction from the fee log when no main transfer
exists, and throw (`none`) when nothing transfer-like is found at all. -/
def receiptToTransaction (cfg : ScanConfig) (token : String)
    (receiptLogs : List InnerLog) (filterByFromAddress : Option String)
    (block? : Option Block) (blocks : String → Block) : Option Transaction :=
  let htlcContractAddress :=
    if token = cfg.nativeUsdcContract then cfg.nativeHtlcContract else cfg.htlcContract
  let poolAddress :=
    if token = cfg.nativeUsdcContract then cfg.nativePoolAddress else cfg.poolAddress
  let logs : List (Option (InnerLog × DecodedEvent)) := receiptLogs.map fun log =>
    if log.address = token then (parseByTokenInterface log.decoded).map ((log, ·))
    else if log.address = htlcContractAddress then
      (parseByHtlcInterface log.decoded).map ((log, ·))
    else none
  let transferCount := (logs.filterMap id).countP fun p =>
    match p.2 with
    | DecodedEvent.transfer _ _ _ => true
    | _ => false
  let final := logs.foldl
    (fun (s : ReceiptScanState) entry =>
      match entry with
      | none => s
      | some (log, DecodedEvent.transfer f t v) =>
        if filterByFromAddress.any fun fa => f != fa then s
        else if t = poolAddress ∨
            (cfg.envMain = false ∧ (t = V2_TRANSFER_CONTRACT ∨ t = V1_TRANSFER_CONTRACT)) ∨
            (cfg.envMain = false ∧ t = V1_HTLC_CONTRACT ∧ s.feeLog = none ∧
              1 < transferCount) then
          { s with feeLog := some (log, ⟨f, t, v, none⟩) }
        else
          let uniswapEvent :=
            if token = cfg.usdcContract ∧ t = cfg.swapPoolContract then
              match parseUniswapReceipt cfg v receiptLogs with
              | some e => some e
              | none => s.uniswapEvent
            else s.uniswapEvent
          { s with transferLog := some (log, ⟨f, t, v, none⟩),
                   uniswapEvent := uniswapEvent }
      | some (_, DecodedEvent.openEv id tok amount recipient hash timeout) =>
        { s with htlcEvent := some (LifecycleEvent.openEvent id tok amount recipient
            hash timeout) }
      | some (_, DecodedEvent.redeemEv id secret) =>
        { s with htlcEvent := some (LifecycleEvent.redeemEvent id secret) }
      | some (_, DecodedEvent.refundEv id) =>
        { s with htlcEvent := some (LifecycleEvent.refundEvent id) }
      | some (_, DecodedEvent.otherEv) => s)
    ⟨none, none, none, none⟩
  let resolved :
      Option ((InnerLog × TransferArgs) × Option (InnerLog × TransferArgs) × Bool) :=
    match final.transferLog with
    | some tl => some (tl, final.feeLog, false)
    | none =>
      match final.feeLog with
      | some fl => some (fl, none, true)
      | none => none
  resolved.bind fun (tl, feeLog, failedFlag) =>
    let args :=
      match feeLog with
      | some (_, fargs) => addFeeToArgs tl.2 fargs.value
      | none => tl.2
    let tLog : TransferLog :=
      { address := tl.1.address, transactionHash := tl.1.transactionHash,
        logIndex := tl.1.logIndex, blockHash := tl.1.blockHash,
        args := some args, failed := failedFlag }
    let b :=
      match block? with
      | some b => b
      | none => blocks tl.1.blockHash
    logAndBlockToPlain tLog (some b)
      (match final.htlcEvent with
       | some e => some e
       | none => final.uniswapEvent)

/-- Membership test of the balance cache (balances.has). -/
def hasKey {β : Type} (cache : List (String × β)) (k : String) : Bool :=
  (lookupKey k cache).isSome

/-- What one live transfer event causes. -/
structure ListenerEffect where
  transaction : Transaction
  updateAddresses : List String
  isNative : Bool
deriving DecidableEq

/-- transactionListener from src/ethers.ts: the handler of live incoming
Transfer events. Returns the transaction added to the store together with the
addresses whose balances get refreshed, or `none` when the event is dropped
(neither address watched, zero value, already known hash, or the native leg
of a bridged-to-native swap). -/
def transactionListener (cfg : ScanConfig) (balancesCache : List (String × Int))
    (knownTxHashes : List String) (from_ to_ : String) (value : Int)
    (log : TransferLog) (block : Block) (receipts : String → List InnerLog)
    (blocks : String → Block) : Option ListenerEffect :=
  if ¬hasKey balancesCache from_ ∧ ¬hasKey balancesCache to_ then none
  else if value = 0 then none
  else if log.transactionHash ∈ knownTxHashes then none
  else if log.address = cfg.nativeUsdcContract ∧
      (log.args.any fun a => a.from_ == cfg.swapPoolContract) then none
  else
    let tx? :=
      if from_ = cfg.htlcContract ∨ from_ = cfg.nativeHtlcContract then
        receiptToTransaction cfg log.address (receipts log.transactionHash) none
          (some block) blocks
      else logAndBlockToPlain log (some block) none
    tx?.map fun tx =>
      { transaction := tx
        updateAddresses :=
          (if hasKey balancesCache from_ then [from_] else []) ++
          (if hasKey balancesCache to_ then [to_] else [])
        isNative := log.address == cfg.nativeUsdcContract }

/-- The view of a log that the classifier decisions and the cursor accounting
read: everything except the fee field and the failed flag. Fee attachment and
failed marking leave this view unchanged. -/
structure LogCore where
  transactionHash : String
  logIndex : Nat
  address : String
  blockHash : String
  core : Option (String × String × Int)
deriving DecidableEq

/-- Project a log to its classification-invariant view. -/
def logCore (l : TransferLog) : LogCore :=
  ⟨l.transactionHash, l.logIndex, l.address, l.blockHash,
    l.args.map fun a => (a.from_, a.to_, a.value)⟩

/-- `acctStep` expressed on the invariant view of a log. -/
def acctStepCore (cfg : ScanConfig) (txsUsingHtlcAllowance : List String)
    (nonceAfter : Int) (c : SyncCursor) (v : LogCore) : SyncCursor :=
  match v.core with
  | none => c
  | some (f, t, value) =>
    let c :=
      if f = cfg.address ∧ nonceAfter ≤ 0 then
        let c := { c with balance := c.balance + value }
        if v.transactionHash ∈ txsUsingHtlcAllowance then
          { c with htlcAllowanceUsed := c.htlcAllowanceUsed - value }
        else { c with transferAllowanceUsed := c.transferAllowanceUsed - value }
      else c
    if t = cfg.address then { c with balance := c.balance - value } else c

/-- Fold the cursor accounting over a list of log views. -/
def acctFold (cfg : ScanConfig) (txsUsingHtlcAllowance : List String) (nonceAfter : Int)
    (views : List LogCore) (c : SyncCursor) : SyncCursor :=
  views.foldl (acctStepCore cfg txsUsingHtlcAllowance nonceAfter) c

/-- The cursor accounting of one classifier callback, on the optional view of
the processed log. -/
def acctAt (cfg : ScanConfig) (txsUsingHtlcAllowance : List String) (nonceAfter : Int)
    (c : SyncCursor) : Option LogCore → SyncCursor
  | none => c
  | some v => acctStepCore cfg txsUsingHtlcAllowance nonceAfter c v

/-- Total value of the logs sent by `address`. -/
def outgoingSum (address : String) (views : List LogCore) : Int :=
  (views.filterMap fun v => v.core.bind fun c =>
    if c.1 = address then some c.2.2 else none).sum

/-- Total value of the logs received by `address`. -/
def incomingSum (address : String) (views : List LogCore) : Int :=
  (views.filterMap fun v => v.core.bind fun c =>
    if c.2.1 = address then some c.2.2 else none).sum

/-- Total value of the logs sent by `address` inside transactions that fund
the HTLC contract. -/
def outgoingHtlcSum (address : String) (htlcTxs : List String)
    (views : List LogCore) : Int :=
  (views.filterMap fun v => v.core.bind fun c =>
    if c.1 = address ∧ v.transactionHash ∈ htlcTxs then some c.2.2 else none).sum

/-- Total value of the logs sent by `address` inside transactions that do not
fund the HTLC contract. -/
def outgoingNonHtlcSum (address : String) (htlcTxs : List String)
    (views : List LogCore) : Int :=
  (views.filterMap fun v => v.core.bind fun c =>
    if c.1 = address ∧ v.transactionHash ∉ htlcTxs then some c.2.2 else none).sum

/-- Closed form of the cursor update one chunk performs, written to compare
against the classifier: the nonce drops by the number of distinct outgoing
transaction hashes; once the decremented nonce is at or below zero every
outgoing log adds its value to the remaining balance and consumes the HTLC
allowance when its transaction funds the HTLC (the direct-transfer allowance
otherwise); every incoming log subtracts its value from the remaining
balance. -/
def chunkCursorSpec (cfg : ScanConfig) (c : SyncCursor)
    (logsInRaw logsOutRaw : List TransferLog) : SyncCursor :=
  let logsIn := filterNonzero logsInRaw
  let logsOut := filterNonzero logsOutRaw
  let nonceAfter := c.usdcNonce - ((logsOut.map TransferLog.transactionHash).dedup).length
  let htlcTxs := (logsOut.filter fun ev => ev.args.any fun a =>
    a.to_ == cfg.htlcContract).map TransferLog.transactionHash
  let views := (logsIn ++ logsOut).map logCore
  { balance := c.balance +
      (if nonceAfter ≤ 0 then outgoingSum cfg.address views else 0) -
      incomingSum cfg.address views
    usdcNonce := nonceAfter
    transferAllowanceUsed := c.transferAllowanceUsed -
      (if nonceAfter ≤ 0 then outgoingNonHtlcSum cfg.address htlcTxs views else 0)
    htlcAllowanceUsed := c.htlcAllowanceUsed -
      (if nonceAfter ≤ 0 then outgoingHtlcSum cfg.address htlcTxs views else 0) }

/-- An inner receipt log that is a native-USDC Transfer (of any sender). -/
def isNativeTransfer (cfg : ScanConfig) (l : InnerLog) : Prop :=
  l.address = cfg.nativeUsdcContract ∧
    ∃ f t v, l.decoded = some (DecodedEvent.transfer f t v)

/-- An inner receipt log that is a native-USDC Transfer sent by the swap
pool. -/
def isPoolNativeTransfer (cfg : ScanConfig) (l : InnerLog) : Prop :=
  l.address = cfg.nativeUsdcContract ∧
    ∃ t v, l.decoded = some (DecodedEvent.transfer cfg.swapPoolContract t v)

/-- Concrete configuration used by the closed evaluations below. -/
def exampleCfg : ScanConfig :=
  { address := "X", envMain := true, poolAddress := "POOL", nativePoolAddress := "NPOOL",
    usdcContract := "USDC", nativeUsdcContract := "NATIVE", htlcContract := "HTLC",
    nativeHtlcContract := "NHTLC", swapPoolContract := "SWAPPOOL" }

/-- Receipt oracle returning no inner logs. -/
def exampleReceipts : String → List InnerLog := fun _ => []

/-- Block oracle returning a fixed block. -/
def exampleBlocks : String → Block := fun _ => ⟨42, 1000⟩

/-- Build a concrete transfer log. -/
def exampleLog (hash : String) (idx : Nat) (sender recipient : String) (v : Int) :
    TransferLog :=
  { address := "USDC", transactionHash := hash, logIndex := idx, blockHash := "B",
    args := some ⟨sender, recipient, v, none⟩, failed := false }

/-- Concrete starting cursor used by the closed evaluations below. -/
def exampleCursor : SyncCursor := ⟨100, 1, 50, 50⟩

/-- Receipt oracle whose receipt for hash h holds one native-USDC Transfer
sent by an address that is not the swap pool. -/
def exampleSwapReceipts : String → List InnerLog := fun h =>
  if h = "h" then [⟨"NATIVE", "h", 5, "B", some (DecodedEvent.transfer "SOMEONE" "X" 7)⟩]
  else []

/-! ## Theorems -/

/-- Helper: setting an index to the element it already holds is the
identity. -/
theorem setSelf {α : Type} : ∀ (l : List α) (n : Nat) (a : α),
    l.get? n = some a → l.set n a = l
  | [], _, _, h => by simp [List.get?] at h
  | x :: xs, 0, a, h => by simp_all
  | x :: xs, n + 1, a, h => by
    simp only [List.get?] at h
    simp [setSelf xs n a h]

/-- Helper: dropping up to a present index peels off that element. -/
theorem dropCons {α : Type} (l : List α) (n : Nat) (a : α) (h : l.get? n = some a) :
    l.drop n = a :: l.drop (n + 1) := by
  have hn : n < l.length := (List.get?_eq_some.mp h).1
  rw [List.drop_eq_getElem_cons hn]
  have := List.get?_eq_getElem? l n
  simp_all [List.getElem?_eq_getElem hn]

/-- Helper: fee attachment does not change the classification-invariant view
of any log. -/
theorem attachFeeAt_map_core (logs : List TransferLog) (j : Nat) (fee : Int) :
    (attachFeeAt logs j fee).map logCore = logs.map logCore := by
  unfold attachFeeAt
  split
  · next l hget =>
    split
    · next a harg =>
      rw [List.map_set]
      have hcore : logCore { l with args := some (addFeeToArgs a fee) } = logCore l := by
        simp [logCore, addFeeToArgs, harg]
      rw [hcore]
      apply setSelf
      rw [List.get?_map, hget]
      rfl
    · rfl
  · rfl

/-- Helper: one classifier callback does not change the
classification-invariant view of the log array. -/
theorem classifyStep_map_core (cfg : ScanConfig) (kn ht : List String) (n : Int)
    (r : String → List InnerLog) (st : ChunkState) (i : Nat) :
    ((classifyStep cfg kn ht n r st i).logs).map logCore = st.logs.map logCore := by
  unfold classifyStep
  split
  · rfl
  · next log hget =>
    split
    · rfl
    · next args harg =>
      split
      · rfl
      · split
        · apply attachFeeAt_map_core
        · rw [List.map_set]
          have hcore : logCore { log with failed := true } = logCore log := by
            simp [logCore]
          rw [hcore]
          apply setSelf
          rw [List.get?_map, hget]
          rfl
        · rfl
        · rfl

/-- Helper: the whole classifier pass does not change the
classification-invariant view of the log array. -/
theorem classifyAux_map_core (cfg : ScanConfig) (kn ht : List String) (n : Int)
    (r : String → List InnerLog) :
    ∀ (fuel i : Nat) (st : ChunkState),
      ((classifyAux cfg kn ht n r fuel i st).logs).map logCore = st.logs.map logCore
  | 0, _, _ => rfl
  | fuel + 1, i, st => by
    rw [classifyAux]
    rw [classifyAux_map_core cfg kn ht n r fuel (i + 1) _]
    exact classifyStep_map_core cfg kn ht n r st i

/-- Helper: the cursor after one classifier callback is exactly the
accounting step on the view of the processed log. -/
theorem classifyStep_cursor (cfg : ScanConfig) (kn ht : List String) (n : Int)
    (r : String → List InnerLog) (st : ChunkState) (i : Nat) :
    (classifyStep cfg kn ht n r st i).cursor =
      acctAt cfg ht n st.cursor ((st.logs.get? i).map logCore) := by
  unfold classifyStep
  split
  · next hget => rw [hget]; rfl
  · next log hget =>
    rw [hget]
    split
    · next harg => simp [acctAt, acctStepCore, logCore, harg]
    · next args harg =>
      have hacct : acctStep cfg ht n st.cursor log.transactionHash args =
          acctAt cfg ht n st.cursor (some (logCore log)) := by
        simp [acctAt, acctStepCore, logCore, acctStep, harg]
      split
      · exact hacct
      · split <;> exact hacct

/-- Helper: folding the accounting over a cons. -/
theorem acctFold_cons (cfg : ScanConfig) (ht : List String) (n : Int) (v : LogCore)
    (vs : List LogCore) (c : SyncCursor) :
    acctFold cfg ht n (v :: vs) c = acctFold cfg ht n vs (acctStepCore cfg ht n c v) := rfl

/-- Helper: the cursor after the whole classifier pass is the accounting fold
over the views of the processed logs. -/
theorem classifyAux_cursor (cfg : ScanConfig) (kn ht : List String) (n : Int)
    (r : String → List InnerLog) :
    ∀ (fuel i : Nat) (st : ChunkState),
      (classifyAux cfg kn ht n r fuel i st).cursor =
        acctFold cfg ht n (((st.logs.map logCore).drop i).take fuel) st.cursor
  | 0, i, st => by simp [classifyAux, acctFold]
  | fuel + 1, i, st => by
    rw [classifyAux]
    rw [classifyAux_cursor cfg kn ht n r fuel (i + 1) _]
    rw [classifyStep_map_core]
    rw [classifyStep_cursor]
    cases hget : st.logs.get? i with
    | none =>
      have hlen : st.logs.length ≤ i := List.get?_eq_none.mp hget
      have hdrop : (st.logs.map logCore).drop i = [] := by
        apply List.drop_eq_nil_of_le; simpa using hlen
      have hdrop2 : (st.logs.map logCore).drop (i + 1) = [] := by
        apply List.drop_eq_nil_of_le; simp; omega
      rw [hdrop, hdrop2]
      simp [acctAt, acctFold]
    | some log =>
      have hv : (st.logs.map logCore).get? i = some (logCore log) := by
        rw [List.get?_map, hget]; rfl
      rw [dropCons _ _ _ hv]
      rw [List.take_succ_cons, acctFold_cons]
      rfl

/-- Helper: closed form of the accounting fold, per component. -/
theorem acctFold_spec (cfg : ScanConfig) (ht : List String) (n : Int) :
    ∀ (views : List LogCore) (c : SyncCursor),
      acctFold cfg ht n views c =
        { balance := c.balance + (if n ≤ 0 then outgoingSum cfg.address views else 0) -
            incomingSum cfg.address views
          usdcNonce := c.usdcNonce
          transferAllowanceUsed := c.transferAllowanceUsed -
            (if n ≤ 0 then outgoingNonHtlcSum cfg.address ht views else 0)
          htlcAllowanceUsed := c.htlcAllowanceUsed -
            (if n ≤ 0 then outgoingHtlcSum cfg.address ht views else 0) }
  | [], c => by
    cases c
    simp [acctFold, outgoingSum, incomingSum, outgoingHtlcSum, outgoingNonHtlcSum]
  | v :: vs, c => by
    rw [acctFold_cons, acctFold_spec cfg ht n vs _]
    cases hv : v.core with
    | none =>
      simp [acctStepCore, hv, outgoingSum, incomingSum, outgoingHtlcSum, outgoingNonHtlcSum,
        List.filterMap_cons]
    | some fv =>
      obtain ⟨f, t, val⟩ := fv
      by_cases hn : n ≤ 0 <;> by_cases hfa : f = cfg.address <;>
        by_cases hmem : v.transactionHash ∈ ht <;> by_cases hta : t = cfg.address <;>
        simp only [acctStepCore, hv, outgoingSum, incomingSum, outgoingHtlcSum,
          outgoingNonHtlcSum, List.filterMap_cons, Option.some_bind, hn, hfa, hmem, hta,
          if_true, if_false, true_and, and_true, false_and, and_false, if_pos, if_neg,
          not_false_iff, not_true, ite_true, ite_false, List.sum_cons,
          SyncCursor.mk.injEq] <;>
        simp_all <;> omega

/-- Claim C4 (amended): the cursor update of one scan chunk, in closed form:
remainingNonce drops by the number of distinct outgoing transaction hashes;
when the decremented nonce is at or below zero, every outgoing log ADDS its
value to remainingBalance (the scan walks backward) and reduces the
remainingAllowance entry selected by whether the TRANSACTION of the log
contains an outgoing transfer to the escrow contract (so a fee log inside an
escrow-funding transaction also counts against the escrow allowance); every
incoming log subtracts its value from remainingBalance; when the decremented
nonce is still positive, outgoing logs contribute nothing. -/
theorem C4_cursor_update_amended (cfg : ScanConfig) (knownHashes : List String)
    (receipts : String → List InnerLog) (blocks : String → Block)
    (cursor : SyncCursor) (logsInRaw logsOutRaw : List TransferLog) :
    (processChunk cfg knownHashes receipts blocks cursor logsInRaw logsOutRaw).cursor =
      chunkCursorSpec cfg cursor logsInRaw logsOutRaw := by
  unfold processChunk chunkFinalState chunkNonceAfter chunkHtlcTxs chunkCursorSpec
  simp only []
  rw [classifyAux_cursor]
  simp only [List.drop_zero]
  rw [show ((((filterNonzero logsInRaw) ++ (filterNonzero logsOutRaw)).map logCore).take
      ((filterNonzero logsInRaw) ++ (filterNonzero logsOutRaw)).length) =
      (((filterNonzero logsInRaw) ++ (filterNonzero logsOutRaw)).map logCore) from by
    rw [← List.length_map]
    exact List.take_length _]
  rw [acctFold_spec]

/-- Helper: the classifier pass leaves the classification-invariant view of
the chunk log array unchanged. -/
theorem chunkFinalState_logs_core (cfg : ScanConfig) (kn : List String)
    (receipts : String → List InnerLog) (cursor : SyncCursor)
    (logsInRaw logsOutRaw : List TransferLog) :
    (chunkFinalState cfg kn receipts cursor logsInRaw logsOutRaw).logs.map logCore =
      (filterNonzero logsInRaw ++ filterNonzero logsOutRaw).map logCore := by
  unfold chunkFinalState
  rw [classifyAux_map_core]

/-- Claim C6: classification emits no Transaction for a zero-value log, in
both paths: every transaction emitted by a scan chunk traces back to an input
log of nonzero value (same hash, log index and value), and the live listener
emits nothing for a zero-value event; the comparison is exact integer
zero. -/
theorem C6_zero_value_logs_emit_nothing (cfg : ScanConfig) (knownHashes : List String)
    (receipts : String → List InnerLog) (blocks : String → Block) (cursor : SyncCursor)
    (logsInRaw logsOutRaw : List TransferLog) :
    (∀ tx ∈ (processChunk cfg knownHashes receipts blocks cursor logsInRaw
        logsOutRaw).transactions,
      ∃ l a, (l ∈ logsInRaw ∨ l ∈ logsOutRaw) ∧ l.args = some a ∧ a.value ≠ 0 ∧
        tx.transactionHash = l.transactionHash ∧ tx.logIndex = l.logIndex ∧
        tx.value = a.value) ∧
    (∀ (balancesCache : List (String × Int)) (knownTxHashes : List String)
        (from_ to_ : String) (log : TransferLog) (block : Block)
        (receipts2 : String → List InnerLog) (blocks2 : String → Block),
      transactionListener cfg balancesCache knownTxHashes from_ to_ 0 log block
        receipts2 blocks2 = none) := by
  constructor
  · intro tx htx
    simp only [processChunk] at htx
    rw [List.mem_filterMap] at htx
    obtain ⟨log2, hlog2, hmap⟩ := htx
    rw [List.mem_filterMap] at hlog2
    obtain ⟨p, hp, hif⟩ := hlog2
    have hmem1 : log2 ∈ (chunkFinalState cfg knownHashes receipts cursor logsInRaw
        logsOutRaw).logs := by
      cases hb : p.2 with
      | false => rw [hb] at hif; simp at hif
      | true =>
        rw [hb] at hif
        simp only [if_true] at hif
        injection hif with hpl
        rw [← hpl]
        exact (List.of_mem_zip hp).1
    have hcore : logCore log2 ∈
        ((filterNonzero logsInRaw ++ filterNonzero logsOutRaw).map logCore) := by
      rw [← chunkFinalState_logs_core cfg knownHashes receipts cursor logsInRaw logsOutRaw]
      exact List.mem_map_of_mem logCore hmem1
    obtain ⟨l, hl, hlc⟩ := List.mem_map.mp hcore
    rw [logAndBlockToPlain] at hmap
    obtain ⟨a2, ha2, htx⟩ := Option.map_eq_some'.mp hmap
    simp only [logCore, LogCore.mk.injEq] at hlc
    obtain ⟨hhash, hidx, haddr, hbh, hargs⟩ := hlc
    rw [ha2] at hargs
    obtain ⟨a, ha, hacore⟩ := Option.map_eq_some'.mp hargs
    have hval : a.value = a2.value := by simpa using congrArg (fun q => q.2.2) hacore
    subst htx
    refine ⟨l, a, ?_, ha, ?_, hhash.symm, hidx.symm, hval.symm⟩
    · rcases List.mem_append.mp hl with h | h
      · rw [filterNonzero] at h
        exact Or.inl (List.mem_filter.mp h).1
      · rw [filterNonzero] at h
        exact Or.inr (List.mem_filter.mp h).1
    · rcases List.mem_append.mp hl with h | h <;>
      · rw [filterNonzero] at h
        have hpred := (List.mem_filter.mp h).2
        rw [ha] at hpred
        simpa using hpred
  · intro balancesCache knownTxHashes from_ to_ log block receipts2 blocks2
    unfold transactionListener
    split
    · rfl
    · simp

/-- Witness for C6: the transaction emitted from a concrete 5-unit log traces
back to that log, and a concrete zero-value listener event emits nothing. -/
theorem C6_zero_value_logs_emit_nothing_witness :
    (∃ l a, (l ∈ ([] : List TransferLog) ∨ l ∈ [exampleLog "h" 0 "A" "X" 5]) ∧
      l.args = some a ∧ a.value ≠ 0 ∧
      ({ token := "USDC", transactionHash := "h", logIndex := 0, sender := "A",
         recipient := "X", value := 5, fee := none, event := none,
         state := TransactionState.mined, blockHeight := some 42,
         timestamp := some 1000 } : Transaction).transactionHash = l.transactionHash ∧
      ({ token := "USDC", transactionHash := "h", logIndex := 0, sender := "A",
         recipient := "X", value := 5, fee := none, event := none,
         state := TransactionState.mined, blockHeight := some 42,
         timestamp := some 1000 } : Transaction).logIndex = l.logIndex ∧
      ({ token := "USDC", transactionHash := "h", logIndex := 0, sender := "A",
         recipient := "X", value := 5, fee := none, event := none,
         state := TransactionState.mined, blockHeight := some 42,
         timestamp := some 1000 } : Transaction).value = a.value) ∧
    transactionListener exampleCfg [("X", 5)] [] "A" "X" 0 (exampleLog "h" 0 "A" "X" 0)
      ⟨1, 2⟩ exampleReceipts exampleBlocks = none :=
  ⟨(C6_zero_value_logs_emit_nothing exampleCfg [] exampleReceipts exampleBlocks
      exampleCursor [] [exampleLog "h" 0 "A" "X" 5]).1 _ (by decide),
   (C6_zero_value_logs_emit_nothing exampleCfg [] exampleReceipts exampleBlocks
      exampleCursor [] [exampleLog "h" 0 "A" "X" 5]).2 [("X", 5)] [] "A" "X"
      (exampleLog "h" 0 "A" "X" 0) ⟨1, 2⟩ exampleReceipts exampleBlocks⟩

/-- Helper: a successful main-transfer search returns an index holding a log
with the searched transaction hash. -/
theorem findMainIdx_spec : ∀ (logs : List TransferLog) (hash : String) (logIndex j : Nat),
    findMainIdx logs hash logIndex = some j →
    ∃ l, logs.get? j = some l ∧ l.transactionHash = hash
  | [], _, _, _, h => by simp [findMainIdx] at h
  | l :: ls, hash, logIndex, j, h => by
    rw [findMainIdx] at h
    split at h
    · next hcond =>
      injection h with hj
      subst hj
      exact ⟨l, rfl, hcond.1⟩
    · next hcond =>
      obtain ⟨j2, hj2, rfl⟩ := Option.map_eq_some'.mp h
      obtain ⟨l2, hl2, hh⟩ := findMainIdx_spec ls hash logIndex j2 hj2
      exact ⟨l2, by simpa using hl2, hh⟩

/-- Helper: the same for the higher-log-index search of the legacy fee
branch. -/
theorem findMainIdxHigher_spec :
    ∀ (logs : List TransferLog) (hash : String) (logIndex j : Nat),
    findMainIdxHigher logs hash logIndex = some j →
    ∃ l, logs.get? j = some l ∧ l.transactionHash = hash
  | [], _, _, _, h => by simp [findMainIdxHigher] at h
  | l :: ls, hash, logIndex, j, h => by
    rw [findMainIdxHigher] at h
    split at h
    · next hcond =>
      injection h with hj
      subst hj
      exact ⟨l, rfl, hcond.1⟩
    · next hcond =>
      obtain ⟨j2, hj2, rfl⟩ := Option.map_eq_some'.mp h
      obtain ⟨l2, hl2, hh⟩ := findMainIdxHigher_spec ls hash logIndex j2 hj2
      exact ⟨l2, by simpa using hl2, hh⟩

/-- Helper: a fee attachment targets an index holding a log of the same
transaction hash as the fee log. -/
theorem decideAction_attachFee (cfg : ScanConfig) (logs : List TransferLog)
    (log : TransferLog) (args : TransferArgs) (j : Nat) (fee : Int)
    (h : decideAction cfg logs log args = StepAction.attachFee j fee) :
    ∃ lj, logs.get? j = some lj ∧ lj.transactionHash = log.transactionHash := by
  unfold decideAction at h
  split at h
  · split at h
    · split at h
      · injection h with hj hfee
        subst hj
        exact findMainIdx_spec logs log.transactionHash log.logIndex _ (by assumption)
      · exact absurd h (by simp)
    · exact absurd h (by simp)
  · split at h
    · split at h
      · split at h
        · injection h with hj hfee
          subst hj
          exact findMainIdxHigher_spec logs log.transactionHash log.logIndex _ (by assumption)
        · exact absurd h (by simp)
      · exact absurd h (by simp)
    · exact absurd h (by simp)

/-- Helper: fee attachment leaves every other index unchanged. -/
theorem attachFeeAt_get?_ne (logs : List TransferLog) (j : Nat) (fee : Int) (idx : Nat)
    (h : idx ≠ j) : (attachFeeAt logs j fee).get? idx = logs.get? idx := by
  unfold attachFeeAt
  split
  · split
    · exact List.get?_set_ne _ _ (fun he => h he.symm)
    · rfl
  · rfl

/-- Helper: a log whose transaction hash is known is never modified by a
classifier callback, because the known-hashes check precedes both fee
attachment (which targets a log sharing the hash of a not-known fee log) and
failed marking. -/
theorem classifyStep_known_preserved (cfg : ScanConfig) (kn ht : List String) (n : Int)
    (r : String → List InnerLog) (st : ChunkState) (i : Nat) (idx : Nat) (l : TransferLog)
    (hlog : st.logs.get? idx = some l) (hkn : l.transactionHash ∈ kn) :
    (classifyStep cfg kn ht n r st i).logs.get? idx = some l := by
  unfold classifyStep
  split
  · exact hlog
  · next log hget =>
    split
    · exact hlog
    · next args harg =>
      split
      · exact hlog
      · split
        · rename_i j fee hda
          show (attachFeeAt st.logs j fee).get? idx = some l
          by_cases hij : idx = j
          · obtain ⟨lj, hlj, hh⟩ := decideAction_attachFee cfg st.logs log args j fee hda
            rw [← hij] at hlj
            rw [hlog] at hlj
            injection hlj with hlj2
            subst hlj2
            exact absurd (hh ▸ hkn) (by assumption)
          · rw [attachFeeAt_get?_ne st.logs j fee idx hij]
            exact hlog
        · show (st.logs.set i { log with failed := true }).get? idx = some l
          by_cases hii : idx = i
          · rw [← hii] at hget
            rw [hlog] at hget
            injection hget with hget2
            subst hget2
            exact absurd hkn (by assumption)
          · rw [List.get?_set_ne _ _ (fun he => hii he.symm)]
            exact hlog
        · exact hlog
        · exact hlog

/-- Helper: known logs survive the whole classifier pass untouched. -/
theorem classifyAux_known_preserved (cfg : ScanConfig) (kn ht : List String) (n : Int)
    (r : String → List InnerLog) :
    ∀ (fuel i : Nat) (st : ChunkState) (idx : Nat) (l : TransferLog),
      st.logs.get? idx = some l → l.transactionHash ∈ kn →
      (classifyAux cfg kn ht n r fuel i st).logs.get? idx = some l
  | 0, _, _, _, _, hlog, _ => hlog
  | fuel + 1, i, st, idx, l, hlog, hkn => by
    rw [classifyAux]
    exact classifyAux_known_preserved cfg kn ht n r fuel (i + 1) _ idx l
      (classifyStep_known_preserved cfg kn ht n r st i idx l hlog hkn) hkn

/-- Helper: reading an index of a one-element extension. -/
theorem get?_append_singleton {α : Type} (xs : List α) (b : α) (idx : Nat) (v : α)
    (h : (xs ++ [b]).get? idx = some v) :
    xs.get? idx = some v ∨ (idx = xs.length ∧ v = b) := by
  by_cases hlt : idx < xs.length
  · left
    rw [List.get?_append hlt] at h
    exact h
  · right
    have hge : xs.length ≤ idx := Nat.le_of_not_lt hlt
    rw [List.get?_append_right hge] at h
    rcases Nat.lt_or_ge (idx - xs.length) 1 with h1 | h1
    · have : idx - xs.length = 0 := by omega
      rw [this] at h
      injection h with h2
      exact ⟨by omega, h2.symm⟩
    · rw [List.get?_eq_none.mpr (by simpa using h1)] at h
      cases h

/-- Helper: a classifier callback on a present index appends exactly one
keep/drop decision, and that decision can be keep only when the hash of the
processed log is not known. -/
theorem classifyStep_keep_shape (cfg : ScanConfig) (kn ht : List String) (n : Int)
    (r : String → List InnerLog) (st : ChunkState) (i : Nat) (log : TransferLog)
    (hget : st.logs.get? i = some log) :
    ∃ b, (classifyStep cfg kn ht n r st i).keep = st.keep ++ [b] ∧
      (b = true → log.transactionHash ∉ kn) := by
  unfold classifyStep
  split
  · next hnone => rw [hnone] at hget; cases hget
  · next log2 hget2 =>
    rw [hget2] at hget
    injection hget with he
    subst he
    split
    · exact ⟨false, rfl, by simp⟩
    · next args harg =>
      split
      · exact ⟨false, rfl, by simp⟩
      · split
        · exact ⟨false, rfl, by simp⟩
        · exact ⟨true, rfl, fun _ => by assumption⟩
        · exact ⟨false, rfl, by simp⟩
        · exact ⟨true, rfl, fun _ => by assumption⟩

/-- Helper: a classifier callback preserves the length of the log array. -/
theorem classifyStep_logs_length (cfg : ScanConfig) (kn ht : List String) (n : Int)
    (r : String → List InnerLog) (st : ChunkState) (i : Nat) :
    (classifyStep cfg kn ht n r st i).logs.length = st.logs.length := by
  have h := congrArg List.length (classifyStep_map_core cfg kn ht n r st i)
  simpa using h

/-- Helper: per-index form of the core preservation. -/
theorem classifyStep_get?_core (cfg : ScanConfig) (kn ht : List String) (n : Int)
    (r : String → List InnerLog) (st : ChunkState) (i idx : Nat) :
    ((classifyStep cfg kn ht n r st i).logs.get? idx).map logCore =
      (st.logs.get? idx).map logCore := by
  have h := congrArg (fun l => l.get? idx) (classifyStep_map_core cfg kn ht n r st i)
  simpa [List.get?_map] using h

/-- Helper: equal invariant views give equal transaction hashes. -/
theorem logCore_hash_eq {l1 l2 : TransferLog} (h : logCore l1 = logCore l2) :
    l1.transactionHash = l2.transactionHash := by
  have := congrArg LogCore.transactionHash h
  simpa [logCore] using this

/-- Helper: through the whole classifier pass, an index marked keep always
holds a log whose transaction hash is not known. -/
theorem classifyAux_keep_known (cfg : ScanConfig) (kn ht : List String) (n : Int)
    (r : String → List InnerLog) :
    ∀ (fuel i : Nat) (st : ChunkState),
      st.keep.length = i → st.logs.length = i + fuel →
      (∀ idx l, st.keep.get? idx = some true → st.logs.get? idx = some l →
        l.transactionHash ∉ kn) →
      ∀ idx l, (classifyAux cfg kn ht n r fuel i st).keep.get? idx = some true →
        (classifyAux cfg kn ht n r fuel i st).logs.get? idx = some l →
        l.transactionHash ∉ kn
  | 0, i, st, _, _, hP, idx, l, hkeep, hlog => hP idx l hkeep hlog
  | fuel + 1, i, st, hlen, hloglen, hP, idx, l, hkeep, hlog => by
    rw [classifyAux] at hkeep hlog
    have hlt : i < st.logs.length := by omega
    have hget : st.logs.get? i = some (st.logs.get ⟨i, hlt⟩) := List.get?_eq_get hlt
    obtain ⟨b, hshape, hb⟩ := classifyStep_keep_shape cfg kn ht n r st i _ hget
    refine classifyAux_keep_known cfg kn ht n r fuel (i + 1)
      (classifyStep cfg kn ht n r st i) ?_ ?_ ?_ idx l hkeep hlog
    · rw [hshape]
      simp [hlen]
    · rw [classifyStep_logs_length]
      omega
    · intro idx2 l2 hkeep2 hlog2
      rw [hshape] at hkeep2
      rcases get?_append_singleton st.keep b idx2 true hkeep2 with hold | ⟨hidx2, hbtrue⟩
      · have hcoreq := classifyStep_get?_core cfg kn ht n r st i idx2
        rw [hlog2] at hcoreq
        obtain ⟨l0, hl0, hcore0⟩ := Option.map_eq_some'.mp hcoreq.symm
        have hnotin := hP idx2 l0 hold hl0
        exact logCore_hash_eq hcore0 ▸ hnotin
      · have hbi : b = true := hbtrue.symm
        have hknown := hb hbi
        have hcoreq := classifyStep_get?_core cfg kn ht n r st i idx2
        rw [hlog2, hidx2, hlen, hget] at hcoreq
        simp only [Option.map_some'] at hcoreq
        injection hcoreq with hcc
        rw [logCore_hash_eq hcc]
        exact hknown

/-- Helper: the chunk classifier keeps only logs whose hash is not known. -/
theorem chunkFinalState_keep_known (cfg : ScanConfig) (kn : List String)
    (receipts : String → List InnerLog) (cursor : SyncCursor)
    (logsInRaw logsOutRaw : List TransferLog) :
    ∀ idx l, (chunkFinalState cfg kn receipts cursor logsInRaw logsOutRaw).keep.get? idx =
        some true →
      (chunkFinalState cfg kn receipts cursor logsInRaw logsOutRaw).logs.get? idx = some l →
      l.transactionHash ∉ kn := by
  intro idx l hkeep hlog
  unfold chunkFinalState at hkeep hlog
  refine classifyAux_keep_known cfg kn _ _ receipts _ 0 _ ?_ ?_ ?_ idx l hkeep hlog
  · rfl
  · simp
  · intro idx2 l2 h2 _
    simp at h2

/-- Helper: the chunk classifier leaves known logs untouched. -/
theorem chunkFinalState_known_untouched (cfg : ScanConfig) (kn : List String)
    (receipts : String → List InnerLog) (cursor : SyncCursor)
    (logsInRaw logsOutRaw : List TransferLog) :
    ∀ idx l, (filterNonzero logsInRaw ++ filterNonzero logsOutRaw).get? idx = some l →
      l.transactionHash ∈ kn →
      (chunkFinalState cfg kn receipts cursor logsInRaw logsOutRaw).logs.get? idx =
        some l := by
  intro idx l hlog hkn
  unfold chunkFinalState
  exact classifyAux_known_preserved cfg kn _ _ receipts _ 0 _ idx l hlog hkn

/-- Claim C3 (amended): no Transaction is emitted for a log whose transaction
hash is known, and a known log does NOT participate in fee correlation
either: the known-hashes check precedes fee pairing, so the classifier leaves
every known log (its args and fee field included) completely untouched within
the batch. -/
theorem C3_known_hash_skipped_amended (cfg : ScanConfig) (knownHashes : List String)
    (receipts : String → List InnerLog) (blocks : String → Block) (cursor : SyncCursor)
    (logsInRaw logsOutRaw : List TransferLog) :
    (∀ tx ∈ (processChunk cfg knownHashes receipts blocks cursor logsInRaw
        logsOutRaw).transactions, tx.transactionHash ∉ knownHashes) ∧
    (∀ idx l, (filterNonzero logsInRaw ++ filterNonzero logsOutRaw).get? idx = some l →
      l.transactionHash ∈ knownHashes →
      (processChunk cfg knownHashes receipts blocks cursor logsInRaw
        logsOutRaw).finalLogs.get? idx = some l) := by
  constructor
  · intro tx htx
    simp only [processChunk] at htx
    rw [List.mem_filterMap] at htx
    obtain ⟨log2, hlog2, hmap⟩ := htx
    rw [List.mem_filterMap] at hlog2
    obtain ⟨p, hp, hif⟩ := hlog2
    obtain ⟨nfin, hgn⟩ := List.mem_iff_get.mp hp
    have hq : ((chunkFinalState cfg knownHashes receipts cursor logsInRaw logsOutRaw).logs.zip
        (chunkFinalState cfg knownHashes receipts cursor logsInRaw logsOutRaw).keep).get?
        nfin.1 = some p := by
      rw [List.get?_eq_get nfin.2]
      exact congrArg some hgn
    rw [List.get?_zip_eq_some] at hq
    obtain ⟨hq1, hq2⟩ := hq
    have hptrue : p.2 = true := by
      by_contra hb
      rw [Bool.not_eq_true] at hb
      rw [hb] at hif
      simp at hif
    have hpl : p.1 = log2 := by
      rw [hptrue] at hif
      simp only [if_true] at hif
      injection hif
    have hnotin := chunkFinalState_keep_known cfg knownHashes receipts cursor logsInRaw
      logsOutRaw nfin.1 log2 (hptrue ▸ hq2) (hpl ▸ hq1)
    rw [logAndBlockToPlain] at hmap
    obtain ⟨a2, ha2, htx⟩ := Option.map_eq_some'.mp hmap
    subst htx
    simpa using hnotin
  · intro idx l hlog hkn
    simp only [processChunk]
    exact chunkFinalState_known_untouched cfg knownHashes receipts cursor logsInRaw
      logsOutRaw idx l hlog hkn

/-- Witness for C3 (amended): the transaction emitted from a fresh log has a
hash outside the known set, and a concrete known log passes through the
classifier unchanged. -/
theorem C3_known_hash_skipped_amended_witness :
    (({ token := "USDC", transactionHash := "h", logIndex := 0, sender := "A",
        recipient := "X", value := 5, fee := none, event := none,
        state := TransactionState.mined, blockHeight := some 42,
        timestamp := some 1000 } : Transaction).transactionHash ∉ ["k"]) ∧
    (processChunk exampleCfg ["h"] exampleReceipts exampleBlocks exampleCursor []
      [exampleLog "h" 0 "X" "Y" 1000]).finalLogs.get? 0 =
      some (exampleLog "h" 0 "X" "Y" 1000) :=
  ⟨(C3_known_hash_skipped_amended exampleCfg ["k"] exampleReceipts exampleBlocks
      exampleCursor [] [exampleLog "h" 0 "A" "X" 5]).1 _ (by decide),
   (C3_known_hash_skipped_amended exampleCfg ["h"] exampleReceipts exampleBlocks
      exampleCursor [] [exampleLog "h" 0 "X" "Y" 1000]).2 0 _ (by decide) (by decide)⟩

/-- Claim C9: a fetched marker set at run start guards the pair so at most one
run is outstanding; a failing run is rolled back completely (marker cleared
for retry, in-flight counter decremented); a successful run keeps the marker
and still decrements the counter. -/
theorem C9_history_sync_guard (st : SyncGuardState) (address : String)
    (h : address ∉ st.fetchedAddresses) :
    (triggerFetch st address).2 = true ∧
    (triggerFetch (triggerFetch st address).1 address).2 = false ∧
    (triggerFetch (triggerFetch st address).1 address).1 = (triggerFetch st address).1 ∧
    finishFetch (triggerFetch st address).1 address RunOutcome.failure = st ∧
    address ∈
      (finishFetch (triggerFetch st address).1 address RunOutcome.success).fetchedAddresses ∧
    (finishFetch (triggerFetch st address).1 address RunOutcome.success).fetchingTxHistory =
      st.fetchingTxHistory := by
  simp [triggerFetch, finishFetch, h]

/-- Witness for C9 at a concrete state. -/
theorem C9_history_sync_guard_witness :
    ("A" ∉ (SyncGuardState.mk [] 0).fetchedAddresses) ∧
    ((triggerFetch ⟨[], 0⟩ "A").2 = true ∧
     (triggerFetch (triggerFetch ⟨[], 0⟩ "A").1 "A").2 = false ∧
     (triggerFetch (triggerFetch ⟨[], 0⟩ "A").1 "A").1 = (triggerFetch ⟨[], 0⟩ "A").1 ∧
     finishFetch (triggerFetch ⟨[], 0⟩ "A").1 "A" RunOutcome.failure = ⟨[], 0⟩ ∧
     "A" ∈ (finishFetch (triggerFetch ⟨[], 0⟩ "A").1 "A"
        RunOutcome.success).fetchedAddresses ∧
     (finishFetch (triggerFetch ⟨[], 0⟩ "A").1 "A" RunOutcome.success).fetchingTxHistory =
        (SyncGuardState.mk [] 0).fetchingTxHistory) :=
  ⟨by decide, C9_history_sync_guard ⟨[], 0⟩ "A" (by decide)⟩

/-- Claim C10: a live transfer event whose sender and recipient are both
absent from the balance cache produces nothing: no transaction and no balance
update. -/
theorem C10_listener_unwatched_emits_nothing (cfg : ScanConfig)
    (balancesCache : List (String × Int)) (knownTxHashes : List String)
    (from_ to_ : String) (value : Int) (log : TransferLog) (block : Block)
    (receipts : String → List InnerLog) (blocks : String → Block)
    (hf : lookupKey from_ balancesCache = none)
    (ht : lookupKey to_ balancesCache = none) :
    transactionListener cfg balancesCache knownTxHashes from_ to_ value log block
      receipts blocks = none := by
  simp [transactionListener, hasKey, hf, ht]

/-- Witness for C10 at a concrete event. -/
theorem C10_listener_unwatched_emits_nothing_witness :
    lookupKey "A" ([] : List (String × Int)) = none ∧
    transactionListener exampleCfg [] [] "A" "B" 5 (exampleLog "h" 0 "A" "B" 5)
      ⟨1, 2⟩ exampleReceipts exampleBlocks = none :=
  ⟨rfl, C10_listener_unwatched_emits_nothing exampleCfg [] [] "A" "B" 5
    (exampleLog "h" 0 "A" "B" 5) ⟨1, 2⟩ exampleReceipts exampleBlocks rfl rfl⟩

/-- Claim C1: in a transaction group made of a fee log (recipient: the fee
pool) and a primary transfer log sharing its transaction hash, in either
batch order, classification emits exactly one Transaction, carrying the
identity and unchanged value of the primary log and the value of the fee log
as fee; the fee log is not emitted separately. -/
theorem C1_fee_paired_with_primary (cfg : ScanConfig) (knownHashes : List String)
    (receipts : String → List InnerLog) (blocks : String → Block) (cursor : SyncCursor)
    (addrP addrF hash blockHashP blockHashF sender senderF recipY : String)
    (i1 i2 : Nat) (v f : Int)
    (hv : v ≠ 0) (hf : f ≠ 0) (hk : hash ∉ knownHashes) (hne : i1 ≠ i2)
    (hp : recipY ≠ cfg.poolAddress)
    (henv : cfg.envMain = true ∨
      (recipY ≠ V2_TRANSFER_CONTRACT ∧ recipY ≠ V1_TRANSFER_CONTRACT ∧
       recipY ≠ V1_HTLC_CONTRACT)) :
    ((processChunk cfg knownHashes receipts blocks cursor []
      [⟨addrP, hash, i1, blockHashP, some ⟨sender, recipY, v, none⟩, false⟩,
       ⟨addrF, hash, i2, blockHashF, some ⟨senderF, cfg.poolAddress, f, none⟩,
        false⟩]).transactions.map
        (fun t => (t.transactionHash, t.logIndex, t.value, t.fee)) =
      [(hash, i1, v, some f)]) ∧
    ((processChunk cfg knownHashes receipts blocks cursor []
      [⟨addrF, hash, i2, blockHashF, some ⟨senderF, cfg.poolAddress, f, none⟩, false⟩,
       ⟨addrP, hash, i1, blockHashP, some ⟨sender, recipY, v, none⟩,
        false⟩]).transactions.map
        (fun t => (t.transactionHash, t.logIndex, t.value, t.fee)) =
      [(hash, i1, v, some f)]) := by
  rcases henv with he | ⟨h2, h1, hh⟩
  · constructor <;>
      simp [processChunk, chunkFinalState, chunkNonceAfter, chunkHtlcTxs, filterNonzero,
        classifyAux, classifyStep, decideAction, findMainIdx, findMainIdxHigher, attachFeeAt,
        addFeeToArgs, acctStep, logAndBlockToPlain, eventFor, lookupKey, hv, hf, hk, hne, hp,
        he, Ne.symm hne]
  · constructor <;>
      simp [processChunk, chunkFinalState, chunkNonceAfter, chunkHtlcTxs, filterNonzero,
        classifyAux, classifyStep, decideAction, findMainIdx, findMainIdxHigher, attachFeeAt,
        addFeeToArgs, acctStep, logAndBlockToPlain, eventFor, lookupKey, hv, hf, hk, hne, hp,
        h2, h1, hh, Ne.symm hne]

/-- Witness for C1: the spec example, a 1000-unit transfer X to Y with a
20-unit fee log, yields one Transaction with value 1000 and fee 20. -/
theorem C1_fee_paired_with_primary_witness :
    (processChunk exampleCfg [] exampleReceipts exampleBlocks exampleCursor []
      [⟨"USDC", "h", 0, "B", some ⟨"X", "Y", 1000, none⟩, false⟩,
       ⟨"USDC", "h", 1, "B", some ⟨"X", exampleCfg.poolAddress, 20, none⟩,
        false⟩]).transactions.map
        (fun t => (t.transactionHash, t.logIndex, t.value, t.fee)) =
      [("h", 0, 1000, some 20)] :=
  (C1_fee_paired_with_primary exampleCfg [] exampleReceipts exampleBlocks exampleCursor
    "USDC" "USDC" "h" "B" "B" "X" "X" "Y" 0 1 1000 20 (by decide) (by decide)
    (by decide) (by decide) (by decide) (Or.inl rfl)).1

/-- Claim C2: a transaction group consisting only of a fee log (recipient: the
fee pool), with no other log of the same transaction hash, emits exactly one
synthetic Transaction built from the fee log itself, with state Failed and
value equal to the value of the fee log. -/
theorem C2_fee_only_failed_transaction (cfg : ScanConfig) (knownHashes : List String)
    (receipts : String → List InnerLog) (blocks : String → Block) (cursor : SyncCursor)
    (tokenAddr hash blockHash sender : String) (logIndex : Nat) (feeValue : Int)
    (hv : feeValue ≠ 0) (hk : hash ∉ knownHashes) :
    (processChunk cfg knownHashes receipts blocks cursor []
      [{ address := tokenAddr, transactionHash := hash, logIndex := logIndex,
         blockHash := blockHash, args := some ⟨sender, cfg.poolAddress, feeValue, none⟩,
         failed := false }]).transactions =
      [{ token := tokenAddr, transactionHash := hash, logIndex := logIndex,
         sender := sender, recipient := cfg.poolAddress, value := feeValue, fee := none,
         event := none, state := TransactionState.failed,
         blockHeight := some (blocks blockHash).number,
         timestamp := some (blocks blockHash).timestamp }] := by
  simp [processChunk, chunkFinalState, chunkNonceAfter, chunkHtlcTxs, filterNonzero,
        classifyAux, classifyStep, decideAction, findMainIdx, attachFeeAt, acctStep,
        logAndBlockToPlain, eventFor, lookupKey, hv, hk]

/-- Witness for C2: the spec example, a lone 20-unit fee log, yields one
Failed Transaction with value 20. -/
theorem C2_fee_only_failed_transaction_witness :
    (processChunk exampleCfg [] exampleReceipts exampleBlocks exampleCursor []
      [{ address := "USDC", transactionHash := "h", logIndex := 1,
         blockHash := "B", args := some ⟨"X", exampleCfg.poolAddress, 20, none⟩,
         failed := false }]).transactions =
      [{ token := "USDC", transactionHash := "h", logIndex := 1,
         sender := "X", recipient := exampleCfg.poolAddress, value := 20, fee := none,
         event := none, state := TransactionState.failed,
         blockHeight := some (exampleBlocks "B").number,
         timestamp := some (exampleBlocks "B").timestamp }] :=
  C2_fee_only_failed_transaction exampleCfg [] exampleReceipts exampleBlocks exampleCursor
    "USDC" "h" "B" "X" 1 20 (by decide) (by decide)

/-- Claim C3, counterexample: a batch whose transaction group (one primary log
and one fee log, hash "h") is entirely known emits no Transaction, AND the
value of the fee log is NOT attached as fee to the primary log: the
known-hashes check runs before fee pairing, so a known fee log does not
participate in fee correlation within the batch, contradicting the claim. -/
theorem C3_known_fee_not_attached_counterexample :
    (processChunk exampleCfg ["h"] exampleReceipts exampleBlocks exampleCursor []
      [exampleLog "h" 0 "X" "Y" 1000, exampleLog "h" 1 "X" "POOL" 20]).transactions = [] ∧
    (processChunk exampleCfg ["h"] exampleReceipts exampleBlocks exampleCursor []
      [exampleLog "h" 0 "X" "Y" 1000, exampleLog "h" 1 "X" "POOL" 20]).finalLogs.map
        (fun l => l.args.map TransferArgs.fee) = [some none, some none] := by
  constructor <;> rfl

/-- Claim C4, counterexample: chunk with two outgoing logs of one transaction
(10 units to the HTLC contract, 2 units of fee to the pool), starting cursor
(balance 100, nonce 1, transfer allowance used 50, HTLC allowance used 50).
The code yields balance 112 (the claim predicts the balance is REDUCED by
matched outgoing values, to at most 100), leaves the transfer allowance at 50
and takes the full 12 out of the HTLC allowance (the claim predicts the
2-unit fee log, whose recipient is not the escrow, reduces the
direct-transfer allowance). -/
theorem C4_cursor_update_counterexample :
    (processChunk exampleCfg [] exampleReceipts exampleBlocks ⟨100, 1, 50, 50⟩ []
      [exampleLog "h1" 0 "X" "HTLC" 10, exampleLog "h1" 1 "X" "POOL" 2]).cursor =
      ⟨112, 0, 50, 38⟩ ∧
    ¬((processChunk exampleCfg [] exampleReceipts exampleBlocks ⟨100, 1, 50, 50⟩ []
      [exampleLog "h1" 0 "X" "HTLC" 10, exampleLog "h1" 1 "X" "POOL" 2]).cursor.balance
        ≤ 100) ∧
    (processChunk exampleCfg [] exampleReceipts exampleBlocks ⟨100, 1, 50, 50⟩ []
      [exampleLog "h1" 0 "X" "HTLC" 10,
       exampleLog "h1" 1 "X" "POOL" 2]).cursor.transferAllowanceUsed = 50 := by
  refine ⟨rfl, by decide, rfl⟩

/-- Helper for C5: the backward scan loop never iterates more often than the
height distance to the floor, because every iteration moves the height down by
at least one block (STEP_BLOCKS is positive). -/
theorem syncLoopF_iter_le (cfg : ScanConfig) (kn : List String)
    (r : String → List InnerLog) (b : String → Block)
    (fetch : Nat → Nat → List TransferLog × List TransferLog)
    (STEP earliest : Nat) (hstep : 1 ≤ STEP) :
    ∀ fuel blockHeight cursor,
      (syncLoopF cfg kn r b fetch STEP earliest fuel blockHeight cursor).1 ≤
        blockHeight - earliest := by
  intro fuel
  induction fuel with
  | zero => intro bh c; simp [syncLoopF]
  | succ g ih =>
    intro bh c
    rw [syncLoopF]
    split
    · next h =>
      have h1 : earliest < bh := h.1
      have := ih (max (bh - STEP) earliest) (processChunk cfg kn r b c
        (fetch (max (bh - STEP) earliest) bh).1 (fetch (max (bh - STEP) earliest) bh).2).cursor
      simp only []
      omega
    · simp

/-- Helper for C5: once the fuel covers the height distance to the floor, more
fuel does not change the result of the backward scan loop: the loop reaches
its exit condition within that many iterations. -/
theorem syncLoopF_stable (cfg : ScanConfig) (kn : List String)
    (r : String → List InnerLog) (b : String → Block)
    (fetch : Nat → Nat → List TransferLog × List TransferLog)
    (STEP earliest : Nat) (hstep : 1 ≤ STEP) :
    ∀ n fuel blockHeight cursor, blockHeight - earliest ≤ n → n ≤ fuel →
      syncLoopF cfg kn r b fetch STEP earliest fuel blockHeight cursor =
        syncLoopF cfg kn r b fetch STEP earliest n blockHeight cursor := by
  intro n
  induction n with
  | zero =>
    intro fuel bh c hbh _
    cases fuel with
    | zero => rfl
    | succ g =>
      rw [syncLoopF, syncLoopF]
      have : ¬(earliest < bh) := by omega
      simp [this]
  | succ m ih =>
    intro fuel bh c hbh hf
    cases fuel with
    | zero => omega
    | succ g =>
      rw [syncLoopF, syncLoopF]
      split
      · next h =>
        have h1 : earliest < bh := h.1
        have heq := ih g (max (bh - STEP) earliest)
          (processChunk cfg kn r b c (fetch (max (bh - STEP) earliest) bh).1
            (fetch (max (bh - STEP) earliest) bh).2).cursor
          (by omega) (by omega)
        simp only [heq]
      · rfl

/-- Claim C5: with a positive chunk size the backward scan loop terminates for
every input: its result is already reached with fuel equal to the height
distance to the floor, the number of body iterations never exceeds that
distance, and when the remaining balance, nonce and both allowance quantities
are zero at the first check the body runs zero times. -/
theorem C5_scan_loop_terminates (cfg : ScanConfig) (knownHashes : List String)
    (receipts : String → List InnerLog) (blocks : String → Block)
    (fetch : Nat → Nat → List TransferLog × List TransferLog)
    (STEP_BLOCKS earliestHeightToCheck blockHeight : Nat) (cursor : SyncCursor)
    (hstep : 1 ≤ STEP_BLOCKS) :
    (∀ fuel, blockHeight - earliestHeightToCheck ≤ fuel →
      syncLoopF cfg knownHashes receipts blocks fetch STEP_BLOCKS earliestHeightToCheck
        fuel blockHeight cursor =
      syncLoop cfg knownHashes receipts blocks fetch STEP_BLOCKS earliestHeightToCheck
        blockHeight cursor) ∧
    (∀ fuel, (syncLoopF cfg knownHashes receipts blocks fetch STEP_BLOCKS
        earliestHeightToCheck fuel blockHeight cursor).1 ≤
      blockHeight - earliestHeightToCheck) ∧
    (cursor.balance = 0 → cursor.usdcNonce = 0 → cursor.transferAllowanceUsed = 0 →
      cursor.htlcAllowanceUsed = 0 →
      ∀ fuel, (syncLoopF cfg knownHashes receipts blocks fetch STEP_BLOCKS
        earliestHeightToCheck fuel blockHeight cursor).1 = 0) := by
  refine ⟨fun fuel hfuel => syncLoopF_stable cfg knownHashes receipts blocks fetch
      STEP_BLOCKS earliestHeightToCheck hstep (blockHeight - earliestHeightToCheck) fuel
      blockHeight cursor le_rfl hfuel,
    fun fuel => syncLoopF_iter_le cfg knownHashes receipts blocks fetch STEP_BLOCKS
      earliestHeightToCheck hstep fuel blockHeight cursor, ?_⟩
  intro hb hn ht hh fuel
  cases fuel with
  | zero => rfl
  | succ g =>
    rw [syncLoopF]
    simp [hb, hn, ht, hh]

/-- Witness for C5 at a concrete loop instance (chunk size 10, floor 0,
starting height 25, zero cursor). -/
theorem C5_scan_loop_terminates_witness :
    (∀ fuel, 25 - 0 ≤ fuel →
      syncLoopF exampleCfg [] exampleReceipts exampleBlocks (fun _ _ => ([], []))
        10 0 fuel 25 ⟨0, 0, 0, 0⟩ =
      syncLoop exampleCfg [] exampleReceipts exampleBlocks (fun _ _ => ([], []))
        10 0 25 ⟨0, 0, 0, 0⟩) ∧
    (∀ fuel, (syncLoopF exampleCfg [] exampleReceipts exampleBlocks (fun _ _ => ([], []))
        10 0 fuel 25 ⟨0, 0, 0, 0⟩).1 ≤ 25 - 0) ∧
    ((SyncCursor.mk 0 0 0 0).balance = 0 → (SyncCursor.mk 0 0 0 0).usdcNonce = 0 →
      (SyncCursor.mk 0 0 0 0).transferAllowanceUsed = 0 →
      (SyncCursor.mk 0 0 0 0).htlcAllowanceUsed = 0 →
      ∀ fuel, (syncLoopF exampleCfg [] exampleReceipts exampleBlocks (fun _ _ => ([], []))
        10 0 fuel 25 ⟨0, 0, 0, 0⟩).1 = 0) :=
  C5_scan_loop_terminates exampleCfg [] exampleReceipts exampleBlocks (fun _ _ => ([], []))
    10 0 25 ⟨0, 0, 0, 0⟩ (by decide)

/-- Helper: the scan-side receipt search skips a prefix with no native-USDC
transfer. -/
theorem parseUniswapScan_clean (cfg : ScanConfig) (amountIn : Int) :
    ∀ (pre : List InnerLog), (∀ l ∈ pre, ¬ isNativeTransfer cfg l) →
    ∀ (rest : List InnerLog),
      parseUniswapScan cfg amountIn (pre ++ rest) = parseUniswapScan cfg amountIn rest
  | [], _, rest => rfl
  | l :: ls, hpre, rest => by
    have hl : ¬ isNativeTransfer cfg l := hpre l (by simp)
    have hls : ∀ l2 ∈ ls, ¬ isNativeTransfer cfg l2 := fun l2 h2 => hpre l2 (by simp [h2])
    rw [List.cons_append]
    rw [show parseUniswapScan cfg amountIn (l :: (ls ++ rest)) =
        parseUniswapScan cfg amountIn (ls ++ rest) from ?_]
    · exact parseUniswapScan_clean cfg amountIn ls hls rest
    · unfold parseUniswapScan
      rw [List.findSome?_cons]
      by_cases haddr : l.address = cfg.nativeUsdcContract
      · cases hd : l.decoded with
        | none => simp [haddr, hd]
        | some de =>
          cases de with
          | transfer f t v => exact absurd ⟨haddr, f, t, v, hd⟩ hl
          | _ => simp [haddr, hd]
      · simp [haddr]

/-- Helper: the receipt-side search leaves its accumulator alone over logs
that are not native-USDC transfers out of the swap pool. -/
theorem parseUniswapReceipt_clean (cfg : ScanConfig) (amountIn : Int) :
    ∀ (logs : List InnerLog) (acc : Option LifecycleEvent),
      (∀ l ∈ logs, ¬ isPoolNativeTransfer cfg l) →
      logs.foldl
        (fun acc innerLog =>
          if innerLog.address = cfg.nativeUsdcContract then
            match innerLog.decoded with
            | some (DecodedEvent.transfer f _ v) =>
                if f = cfg.swapPoolContract then some (LifecycleEvent.swapEvent amountIn v)
                else acc
            | _ => acc
          else acc)
        acc = acc
  | [], _, _ => rfl
  | l :: ls, acc, hcl => by
    have hl : ¬ isPoolNativeTransfer cfg l := hcl l (by simp)
    have hls : ∀ l2 ∈ ls, ¬ isPoolNativeTransfer cfg l2 := fun l2 h2 => hcl l2 (by simp [h2])
    rw [List.foldl_cons]
    rw [show (if l.address = cfg.nativeUsdcContract then
        match l.decoded with
        | some (DecodedEvent.transfer f _ v) =>
            if f = cfg.swapPoolContract then some (LifecycleEvent.swapEvent amountIn v)
            else acc
        | _ => acc
      else acc) = acc from ?_]
    · exact parseUniswapReceipt_clean cfg amountIn ls acc hls
    · by_cases haddr : l.address = cfg.nativeUsdcContract
      · cases hd : l.decoded with
        | none => simp [haddr, hd]
        | some de =>
          cases de with
          | transfer f t v =>
            by_cases hf : f = cfg.swapPoolContract
            · exact absurd ⟨haddr, t, v, hf ▸ hd⟩ hl
            · simp [haddr, hd, hf]
          | _ => simp [haddr, hd]
      · simp [haddr]

/-- Claim C7 (amended): for a log paying the swap pool, the history-scan
classifier attaches the result of its receipt search as the Swap event of the
emitted Transaction, and that search takes the FIRST native-USDC Transfer of
the receipt with NO condition on its sender (amountIn: the value of the
pool-bound log; amountOut: the value of that transfer); only
receiptToTransaction restricts the second leg to transfers sent by the pool
(and uses the last such transfer). -/
theorem C7_swap_leg_amended (cfg : ScanConfig) (knownHashes : List String)
    (receipts : String → List InnerLog) (blocks : String → Block) (cursor : SyncCursor)
    (tokenAddr hash blockHash sender : String) (logIndex : Nat) (v : Int)
    (amountIn w w2 : Int) (sNative tNative t2 hash2 bh2 hash3 bh3 : String)
    (idx2 idx3 : Nat) (pre rest logs1 post : List InnerLog)
    (hv : v ≠ 0) (hk : hash ∉ knownHashes)
    (hsp : cfg.swapPoolContract ≠ cfg.poolAddress)
    (henv : cfg.envMain = true ∨
      (cfg.swapPoolContract ≠ V2_TRANSFER_CONTRACT ∧
       cfg.swapPoolContract ≠ V1_TRANSFER_CONTRACT ∧
       cfg.swapPoolContract ≠ V1_HTLC_CONTRACT))
    (hsh : cfg.swapPoolContract ≠ cfg.htlcContract)
    (hfh : sender ≠ cfg.htlcContract)
    (hpre : ∀ l ∈ pre, ¬ isNativeTransfer cfg l)
    (hpost : ∀ l ∈ post, ¬ isPoolNativeTransfer cfg l) :
    ((processChunk cfg knownHashes receipts blocks cursor []
      [⟨tokenAddr, hash, logIndex, blockHash, some ⟨sender, cfg.swapPoolContract, v, none⟩,
        false⟩]).transactions.map (fun t => (t.transactionHash, t.event)) =
      [(hash, parseUniswapScan cfg v (receipts hash))]) ∧
    (parseUniswapScan cfg amountIn
      (pre ++ (⟨cfg.nativeUsdcContract, hash2, idx2, bh2,
        some (DecodedEvent.transfer sNative tNative w)⟩ : InnerLog) :: rest) =
      some (LifecycleEvent.swapEvent amountIn w)) ∧
    (∀ innerLogs : List InnerLog, (∀ l ∈ innerLogs, ¬ isPoolNativeTransfer cfg l) →
      parseUniswapReceipt cfg amountIn innerLogs = none) ∧
    (parseUniswapReceipt cfg amountIn
      (logs1 ++ (⟨cfg.nativeUsdcContract, hash3, idx3, bh3,
        some (DecodedEvent.transfer cfg.swapPoolContract t2 w2)⟩ : InnerLog) :: post) =
      some (LifecycleEvent.swapEvent amountIn w2)) := by
  refine ⟨?_, ?_, ?_, ?_⟩
  · rcases henv with he | ⟨h2, h1, hh⟩
    · simp [processChunk, chunkFinalState, chunkNonceAfter, chunkHtlcTxs, filterNonzero,
        classifyAux, classifyStep, decideAction, findMainIdx, findMainIdxHigher,
        attachFeeAt, acctStep, logAndBlockToPlain, eventFor, lookupKey, setKey, hv, hk,
        hsp, hsh, hfh, he]
    · simp [processChunk, chunkFinalState, chunkNonceAfter, chunkHtlcTxs, filterNonzero,
        classifyAux, classifyStep, decideAction, findMainIdx, findMainIdxHigher,
        attachFeeAt, acctStep, logAndBlockToPlain, eventFor, lookupKey, setKey, hv, hk,
        hsp, hsh, hfh, h2, h1, hh]
  · rw [parseUniswapScan_clean cfg amountIn pre hpre]
    simp [parseUniswapScan, List.findSome?_cons]
  · intro innerLogs hcl
    exact parseUniswapReceipt_clean cfg amountIn innerLogs none hcl
  · unfold parseUniswapReceipt
    rw [List.foldl_append, List.foldl_cons]
    refine Eq.trans (parseUniswapReceipt_clean cfg amountIn post _ hpost) ?_
    simp

/-- Witness for C7 (amended): the concrete swap log of the counterexample,
with the theorem instantiated at empty prefix and suffix lists. -/
theorem C7_swap_leg_amended_witness :
    (processChunk exampleCfg [] exampleSwapReceipts exampleBlocks exampleCursor []
      [⟨"USDC", "h", 0, "B", some ⟨"X", exampleCfg.swapPoolContract, 100, none⟩,
        false⟩]).transactions.map (fun t => (t.transactionHash, t.event)) =
      [("h", parseUniswapScan exampleCfg 100 (exampleSwapReceipts "h"))] :=
  (C7_swap_leg_amended exampleCfg [] exampleSwapReceipts exampleBlocks exampleCursor
    "USDC" "h" "B" "X" 0 100 1 2 3 "s" "t" "t2" "h2" "b2" "h3" "b3" 0 0 [] [] [] []
    (by decide) (by decide) (by decide) (Or.inl rfl) (by decide) (by decide)
    (by simp) (by simp)).1

/-- Claim C7, counterexample: a log paying the swap pool whose receipt holds a
single native-USDC Transfer sent by "SOMEONE" (not the pool) still gets a
Swap event with amountOut 7 attached: the history-scan classifier does not
require the opposite-token transfer to come out of the pool, contradicting
the claim. -/
theorem C7_swap_leg_counterexample :
    (processChunk exampleCfg [] exampleSwapReceipts exampleBlocks exampleCursor []
      [exampleLog "h" 0 "X" "SWAPPOOL" 100]).transactions.map Transaction.event =
      [some (LifecycleEvent.swapEvent 100 7)] ∧
    ((exampleSwapReceipts "h").all fun l =>
      match l.decoded with
      | some (DecodedEvent.transfer f _ _) => f != "SWAPPOOL"
      | _ => true) = true := by
  constructor <;> rfl

/-- Helper: lookup misses an association list whose keys all differ from the
key. -/
theorem lookupKey_none {β : Type} : ∀ (m : List (String × β)) (a : String),
    (∀ p ∈ m, p.1 ≠ a) → lookupKey a m = none
  | [], _, _ => rfl
  | p :: ps, a, h => by
    rw [lookupKey]
    rw [if_neg (h p (by simp))]
    exact lookupKey_none ps a fun q hq => h q (by simp [hq])

/-- Helper: a successful lookup is a member. -/
theorem lookupKey_mem {β : Type} : ∀ (m : List (String × β)) (a : String) (b : β),
    lookupKey a m = some b → (a, b) ∈ m
  | [], _, _, h => by cases h
  | p :: ps, a, b, h => by
    obtain ⟨k, v⟩ := p
    rw [lookupKey] at h
    split at h
    · next he =>
      injection h with hb
      subst hb
      simp only [] at he
      subst he
      exact List.mem_cons_self _ _
    · exact List.mem_cons_of_mem _ (lookupKey_mem ps a b h)

/-- Helper: a member makes the lookup succeed. -/
theorem mem_lookupKey {β : Type} : ∀ (m : List (String × β)) (a : String) (b : β),
    (a, b) ∈ m → ∃ c, lookupKey a m = some c
  | [], _, _, h => by cases h
  | p :: ps, a, b, h => by
    rw [lookupKey]
    by_cases he : p.1 = a
    · exact ⟨p.2, by rw [if_pos he]⟩
    · rw [if_neg he]
      rcases List.mem_cons.mp h with h1 | h1
      · exact absurd (congrArg Prod.fst h1.symm) he
      · exact mem_lookupKey ps a b h1

/-- Helper: lookup after setting the same key. -/
theorem lookupKey_setKey_self {β : Type} : ∀ (m : List (String × β)) (k : String) (v : β),
    lookupKey k (setKey m k v) = some v
  | [], k, v => by simp [setKey, lookupKey]
  | p :: ps, k, v => by
    rw [setKey]
    by_cases he : p.1 = k
    · rw [if_pos he, lookupKey, if_pos rfl]
    · rw [if_neg he, lookupKey, if_neg he]
      exact lookupKey_setKey_self ps k v

/-- Helper: lookup after setting a different key. -/
theorem lookupKey_setKey_ne {β : Type} : ∀ (m : List (String × β)) (a k : String) (v : β),
    k ≠ a → lookupKey a (setKey m k v) = lookupKey a m
  | [], a, k, v, h => by simp [setKey, lookupKey, h]
  | p :: ps, a, k, v, h => by
    rw [setKey]
    by_cases he : p.1 = k
    · rw [if_pos he]
      rw [lookupKey, lookupKey]
      rw [if_neg (show ¬((k, v).1 = a) from h),
        if_neg (show ¬(p.1 = a) from fun hc => h (he.symm.trans hc))]
    · rw [if_neg he]
      rw [lookupKey, lookupKey]
      by_cases hp : p.1 = a
      · rw [if_pos hp, if_pos hp]
      · rw [if_neg hp, if_neg hp]
        exact lookupKey_setKey_ne ps a k v h

/-- Helper: setting an absent key appends. -/
theorem setKey_notMem {β : Type} : ∀ (m : List (String × β)) (k : String) (v : β),
    (∀ p ∈ m, p.1 ≠ k) → setKey m k v = m ++ [(k, v)]
  | [], _, _, _ => rfl
  | p :: ps, k, v, h => by
    rw [setKey, if_neg (h p (by simp))]
    rw [setKey_notMem ps k v fun q hq => h q (by simp [hq])]
    rfl

/-- Helper: building a map from pairs with fresh, distinct keys appends them
all. -/
theorem foldl_setKey_disjoint {β : Type} :
    ∀ (pairs acc : List (String × β)),
      (∀ p ∈ pairs, ∀ q ∈ acc, q.1 ≠ p.1) → (pairs.map Prod.fst).Nodup →
      pairs.foldl (fun m p => setKey m p.1 p.2) acc = acc ++ pairs
  | [], acc, _, _ => by simp
  | p :: ps, acc, hdisj, hnd => by
    rw [List.foldl_cons]
    rw [setKey_notMem acc p.1 p.2 fun q hq => hdisj p (by simp) q hq]
    rw [foldl_setKey_disjoint ps (acc ++ [p]) ?_ ?_]
    · simp
    · intro p2 hp2 q hq
      rcases List.mem_append.mp hq with h | h
      · exact hdisj p2 (by simp [hp2]) q h
      · have : q = p := by simpa using h
        subst this
        rw [List.map_cons] at hnd
        have := (List.nodup_cons.mp hnd).1
        intro hc
        exact this (hc ▸ List.mem_map_of_mem Prod.fst hp2)
    · rw [List.map_cons] at hnd
      exact (List.nodup_cons.mp hnd).2

/-- Helper: the newBalances map construction is the identity on distinct
keys. -/
theorem mkBalancesMap_nodup {pairs : List (String × Int)}
    (hnd : (pairs.map Prod.fst).Nodup) : mkBalancesMap pairs = pairs := by
  unfold mkBalancesMap
  rw [foldl_setKey_disjoint pairs [] (by intro p _ q hq; cases hq) hnd]
  simp

/-- Helper: zipping a list with its image is mapping to pairs. -/
theorem zip_map_self {α β : Type} (g : α → β) :
    ∀ (l : List α), l.zip (l.map g) = l.map fun a => (a, g a)
  | [] => rfl
  | a :: as => by simp [zip_map_self g as]

/-- Helper: lookup through a fold of set operations with distinct update
keys. -/
theorem lookupKey_foldl_setKey {β : Type} :
    ∀ (updates m : List (String × β)) (a : String), (updates.map Prod.fst).Nodup →
      lookupKey a (updates.foldl (fun m p => setKey m p.1 p.2) m) =
        match lookupKey a updates with
        | some v => some v
        | none => lookupKey a m
  | [], m, a, _ => by simp [lookupKey]
  | p :: ps, m, a, hnd => by
    rw [List.foldl_cons]
    rw [lookupKey_foldl_setKey ps (setKey m p.1 p.2) a
      (by rw [List.map_cons] at hnd; exact (List.nodup_cons.mp hnd).2)]
    by_cases he : p.1 = a
    · have hnone : lookupKey a ps = none := by
        apply lookupKey_none
        intro q hq
        rw [List.map_cons] at hnd
        have h1 := (List.nodup_cons.mp hnd).1
        intro hc
        exact h1 (he ▸ hc ▸ List.mem_map_of_mem Prod.fst hq)
      rw [hnone]
      rw [show lookupKey a (p :: ps) = some p.2 from by rw [lookupKey, if_pos he]]
      rw [he] at *
      rw [lookupKey_setKey_self]
    · rw [show lookupKey a (p :: ps) = lookupKey a ps from by rw [lookupKey, if_neg he]]
      rw [lookupKey_setKey_ne m a p.1 p.2 he]

/-- Helper: membership in the patch list of one refresh, characterized. -/
theorem updateBalances_patches_iff (g : String → Int) (cache : List (String × Int))
    (addresses : List String) (hnd : addresses.Nodup) (a : String) (b : Int) :
    (a, b) ∈ (updateBalances g cache addresses).patches ↔
      (a ∈ addresses ∧ b = g a ∧ lookupKey a cache ≠ some (g a)) := by
  unfold updateBalances
  by_cases hemp : addresses.isEmpty
  · cases addresses with
    | nil => simp
    | cons x xs => simp at hemp
  · rw [if_neg (by simpa using hemp)]
    simp only []
    rw [zip_map_self g addresses, mkBalancesMap_nodup (by
      rw [List.map_map, show (Prod.fst ∘ fun a => (a, g a)) = (id : String → String)
        from rfl]
      simpa using hnd)]
    rw [List.mem_filter]
    simp only [List.mem_map]
    constructor
    · rintro ⟨⟨x, hx, hxe⟩, hpred⟩
      obtain ⟨h1, h2⟩ := Prod.mk.injEq .. |>.mp hxe
      subst h1
      subst h2
      simp only [beq_iff_eq, Bool.not_eq_true'] at hpred
      refine ⟨hx, rfl, ?_⟩
      simpa using hpred
    · rintro ⟨ha, hb, hne⟩
      subst hb
      exact ⟨⟨a, ha, rfl⟩, by simpa using hne⟩

/-- Helper: after one refresh, the cache holds the fetched balance of every
refreshed address. -/
theorem updateBalances_cache_lookup (g : String → Int) (cache : List (String × Int))
    (addresses : List String) (hnd : addresses.Nodup) (a : String) (ha : a ∈ addresses) :
    lookupKey a (updateBalances g cache addresses).cache = some (g a) := by
  unfold updateBalances
  have hemp : ¬ addresses.isEmpty := by
    cases addresses with
    | nil => cases ha
    | cons x xs => simp
  rw [if_neg (by simpa using hemp)]
  simp only []
  rw [zip_map_self g addresses, mkBalancesMap_nodup (by
    rw [List.map_map, show (Prod.fst ∘ fun a => (a, g a)) = (id : String → String)
      from rfl]
    simpa using hnd)]
  have hndch : (((addresses.map fun x => (x, g x)).filter
      (fun p => !(lookupKey p.1 cache == some p.2))).map Prod.fst).Nodup := by
    apply List.Nodup.sublist (List.Sublist.map Prod.fst (List.filter_sublist _))
    rw [List.map_map]
    rw [show (Prod.fst ∘ fun x => (x, g x)) = (id : String → String) from rfl]
    simpa using hnd
  rw [lookupKey_foldl_setKey _ _ _ hndch]
  cases hch : lookupKey a ((addresses.map fun x => (x, g x)).filter
      (fun p => !(lookupKey p.1 cache == some p.2))) with
  | some v =>
    have hm := lookupKey_mem _ _ _ hch
    have hm2 := List.mem_filter.mp hm
    obtain ⟨x, hx, hxe⟩ := List.mem_map.mp hm2.1
    obtain ⟨h1, h2⟩ := Prod.mk.injEq .. |>.mp hxe
    subst h1
    subst h2
    rfl
  | none =>
    by_contra hc
    have hmem : ((a, g a) : String × Int) ∈ (addresses.map fun x => (x, g x)).filter
        (fun p => !(lookupKey p.1 cache == some p.2)) := by
      rw [List.mem_filter]
      refine ⟨List.mem_map.mpr ⟨a, ha, rfl⟩, ?_⟩
      simp only [beq_iff_eq, Bool.not_eq_true']
      simpa using hc
    obtain ⟨c, hcc⟩ := mem_lookupKey _ _ _ hmem
    rw [hch] at hcc
    cases hcc

/-- Helper: forgetting an address removes its cache entry. -/
theorem lookupKey_forget_self (cache : List (String × Int)) (a : String) :
    lookupKey a (forgetBalances cache [a]) = none := by
  unfold forgetBalances
  simp only [List.foldl_cons, List.foldl_nil]
  apply lookupKey_none
  intro p hp
  have hf := List.of_mem_filter hp
  simpa using hf

/-- Claim C8: a refresh patches an address if and only if the newly fetched
balance differs from the cached value (an address with no cache entry counts
as different, so it is reported as new); refreshing twice in a row with an
unchanged fetch patches nothing the second time; a forgotten address is
patched again by the next refresh. -/
theorem C8_balance_patch_iff_changed (g : String → Int) (cache : List (String × Int))
    (addresses : List String) (hnd : addresses.Nodup) :
    (∀ a b, (a, b) ∈ (updateBalances g cache addresses).patches ↔
      (a ∈ addresses ∧ b = g a ∧ lookupKey a cache ≠ some (g a))) ∧
    ((updateBalances g (updateBalances g cache addresses).cache addresses).patches = []) ∧
    (∀ a ∈ addresses,
      (a, g a) ∈ (updateBalances g (forgetBalances cache [a]) addresses).patches) := by
  refine ⟨fun a b => updateBalances_patches_iff g cache addresses hnd a b, ?_, ?_⟩
  · rw [List.eq_nil_iff_forall_not_mem]
    rintro ⟨a, b⟩ hmem
    rw [updateBalances_patches_iff g _ addresses hnd a b] at hmem
    obtain ⟨ha, hb, hne⟩ := hmem
    exact hne (hb ▸ updateBalances_cache_lookup g cache addresses hnd a ha)
  · intro a ha
    rw [updateBalances_patches_iff g _ addresses hnd a (g a)]
    refine ⟨ha, rfl, ?_⟩
    rw [lookupKey_forget_self]
    simp

/-- Witness for C8 at a concrete refresh: refreshing twice patches nothing
the second time, and a forgotten address is patched again. -/
theorem C8_balance_patch_iff_changed_witness :
    ((updateBalances (fun _ => 5) (updateBalances (fun _ => 5) [] ["A", "B"]).cache
      ["A", "B"]).patches = []) ∧
    (("A", (5 : Int)) ∈ (updateBalances (fun _ => 5)
      (forgetBalances [] ["A"]) ["A", "B"]).patches) :=
  ⟨(C8_balance_patch_iff_changed (fun _ => 5) [] ["A", "B"] (by decide)).2.1,
   (C8_balance_patch_iff_changed (fun _ => 5) [] ["A", "B"] (by decide)).2.2 "A"
     (by decide)⟩

end Wallet
